import Mathlib

/-!
# Verification of the `rbrl` scheduling engine (`internal/schedule/scheduler.go`)

This file is a shallow embedding, in Lean 4, of the assignment engine of the
`rbrl` schedule generator, together with proofs about the embedded code.

Modelling conventions:

* A calendar date (Go `time.Time` at midnight UTC) is a `Nat`: the number of
  days since 1970-01-01.  1970-01-01 was a Thursday, so `weekday d = (d+4) % 7`
  with Go's numbering (Sunday = 0, …, Saturday = 6).
* Go `float64` scores are modelled exactly.  Every attempt-level score
  (`softScore`) the program compares is a sum of integers, each far below
  2^53, so float64 evaluates it exactly and the `Int` model agrees with the
  binary.  The per-slot score (`scoreSlot`) uses the constants 0.1 and
  0.001, which are not binary floats; it is modelled as an exact fraction
  (`Frac`), and no theorem below depends on its numeric value, only on
  which candidates are legal.
* Go's `math/rand` generator is abstracted as a `Shuffler`: a family of
  deterministic shuffle functions indexed by the seed and, for the index
  shuffles inside one attempt, by a call counter.  Every theorem quantifies
  over the shuffler, so the concrete Go PRNG is one instance.
* Go maps are modelled as total functions (`map[k]bool` reads a missing key as
  `false`; `map[k]int` as `0`; a map with `ok`-checked reads as `Option`).
  Go map *iteration* order is unspecified by the language; the one place the
  scheduler iterates a map in a way that can affect its output (the rematch
  section of `buildMetrics`) is therefore parameterized by the enumeration
  order of the keys, and theorems quantify over that order.
-/

namespace Rbrl

/-- Go's `time.Weekday` numbering for a date given as days since 1970-01-01
(a Thursday): Sunday = 0, …, Saturday = 6. -/
def weekday (d : Nat) : Nat := (d + 4) % 7

def isSunday (d : Nat) : Bool := weekday d == 0

def isSaturday (d : Nat) : Bool := weekday d == 6

/-- Civil-date computation (days since 1970-01-01 → year/month/day),
used only to render dates the way Go's `Format("01/02")` does and to
compute ISO weeks.  Standard era-based algorithm. -/
def civilFromDays (z0 : Nat) : Nat × Nat × Nat :=
  let z := z0 + 719468
  let era := z / 146097
  let doe := z % 146097
  let yoe := (doe - doe / 1460 + doe / 36524 - doe / 146096) / 365
  let y := yoe + era * 400
  let doy := doe - (365 * yoe + yoe / 4 - yoe / 100)
  let mp := (5 * doy + 2) / 153
  let dd := doy - (153 * mp + 2) / 5 + 1
  let mm := if mp < 10 then mp + 3 else mp - 9
  (if mm <= 2 then y + 1 else y, mm, dd)

def isLeapYear (y : Nat) : Bool :=
  (y % 4 == 0 && y % 100 != 0) || y % 400 == 0

/-- Cumulative day counts at the start of each month (non-leap). -/
def monthOffset (m : Nat) : Nat :=
  [0, 0, 31, 59, 90, 120, 151, 181, 212, 243, 273, 304, 334].getD m 0

/-- Ordinal day of the year (1-based) of a date. -/
def dayOfYear (z : Nat) : Nat :=
  let (y, m, d) := civilFromDays z
  monthOffset m + (if 2 < m && isLeapYear y then 1 else 0) + d

/-- The ISO-8601 week number of a date (the part of Go's
`time.Time.ISOWeek()` the scheduler uses).  It is the week-of-year of the
Thursday falling in the same Monday-started week as the date. -/
def isoWeek (z : Nat) : Nat :=
  let wd := (z + 3) % 7 + 1  -- ISO weekday: Monday = 1, …, Sunday = 7
  let th := z + 4 - wd       -- the Thursday of this Monday-started week
  (dayOfYear th - 1) / 7 + 1

/-- Zero-padded two-digit rendering, as Go's `01`/`02` format verbs. -/
def pad2 (n : Nat) : String :=
  if n < 10 then "0" ++ toString n else toString n

/-- Go's `Format("01/02")` (month/day) on a date. -/
def formatMMDD (z : Nat) : String :=
  let (_, m, d) := civilFromDays z
  pad2 m ++ "/" ++ pad2 d

/-- Split a character list at its first colon. -/
def splitColon : List Char → Option (List Char × List Char)
  | [] => none
  | c :: rest =>
    if c = ':' then some ([], rest)
    else (splitColon rest).map (fun p => (c :: p.1, p.2))

/-- Decimal value of a digit list. -/
def digitsToNat (ds : List Char) : Nat :=
  ds.foldl (fun n c => n * 10 + (c.toNat - 48)) 0

/-- Go's `time.Parse("15:04", t)` followed by `Hour()*60+Minute()`:
parses "H:MM"/"HH:MM" into minutes since midnight, `none` on parse failure
(Go's `15` verb takes one or two hour digits, `04` exactly two minute
digits, and both components are range-checked). -/
def timeMinutes (t : String) : Option Nat :=
  match splitColon t.toList with
  | some (h, m) =>
    if (h.length == 1 || h.length == 2) && m.length == 2
        && h.all Char.isDigit && m.all Char.isDigit then
      let hv := digitsToNat h
      let mv := digitsToNat m
      if hv < 24 && mv < 60 then some (hv * 60 + mv) else none
    else none
  | none => none

/-- An exact unnormalized fraction, standing in for the `float64` slot
scores.  Denominators are positive in every construction below, so the
cross-multiplication comparison is the rational order.  (Exactness differs
from binary floating point only in which of two nearly-tied candidates a
greedy scan prefers; no claim in this file depends on that choice.) -/
structure Frac where
  num : Int
  den : Int
deriving DecidableEq, Repr, Inhabited

def Frac.ofInt (n : Int) : Frac := ⟨n, 1⟩

def Frac.add (a b : Frac) : Frac := ⟨a.num * b.den + b.num * a.den, a.den * b.den⟩

def Frac.sub (a b : Frac) : Frac := ⟨a.num * b.den - b.num * a.den, a.den * b.den⟩

def Frac.mul (a b : Frac) : Frac := ⟨a.num * b.num, a.den * b.den⟩

def Frac.abs (a : Frac) : Frac := ⟨|a.num|, |a.den|⟩

/-- Strict rational comparison (for positive denominators). -/
def Frac.blt (a b : Frac) : Bool := a.num * b.den < b.num * a.den

/-- Non-strict rational comparison (for positive denominators). -/
def Frac.ble (a b : Frac) : Bool := a.num * b.den ≤ b.num * a.den

/-- `strategy.Game`: a required matchup. -/
structure Game where
  home : String
  away : String
  label : String
deriving DecidableEq, Repr, Inhabited

/-- `schedule.Slot`: a bookable (date, time-of-day, field) unit.
Doubles as the `slotKey` map key, which has exactly the same three fields. -/
structure Slot where
  date : Nat
  time : String
  field : String
deriving DecidableEq, Repr, Inhabited

/-- `schedule.Assignment`: a game placed in a slot. -/
structure Assignment where
  game : Game
  slot : Slot
deriving DecidableEq, Repr, Inhabited

/-- `timeKey`: the (date, time) key of the per-timeslot counter. -/
structure TimeKey where
  date : Nat
  time : String
deriving DecidableEq, Repr, Inhabited

/-- `matchupKey`: an unordered team pair, stored with `a ≤ b`. -/
structure MatchupKey where
  a : String
  b : String
deriving DecidableEq, Repr, Inhabited

/-- Lexicographic order on character lists. -/
def charListLt : List Char → List Char → Bool
  | [], [] => false
  | [], _ :: _ => true
  | _ :: _, [] => false
  | a :: as, b :: bs => if a < b then true else if b < a then false else charListLt as bs

/-- Go's `<` on strings: lexicographic byte order, which for UTF-8 equals
lexicographic code-point order. -/
def strLt (a b : String) : Bool := charListLt a.toList b.toList

/-- `normalizeMatchup`: order the two team names. -/
def normalizeMatchup (a b : String) : MatchupKey :=
  if strLt b a then ⟨b, a⟩ else ⟨a, b⟩

/-- `config.Rules` (the fields the scheduler reads). -/
structure Rules where
  maxGamesPerDayPerTeam : Int
  maxConsecutiveDays : Int
  maxGamesPerWeek : Int
  maxGamesPerTimeslot : Int
  max3In4Days : Bool
deriving DecidableEq, Repr, Inhabited

/-- `config.Guidelines` (the fields the scheduler reads). -/
structure Guidelines where
  minDaysBetweenSameMatchup : Int
  balanceSundayGames : Bool
  balancePace : Bool
deriving DecidableEq, Repr, Inhabited

/-- `config.Season` (the fields the scheduler reads). -/
structure Season where
  startDate : Nat
  endDate : Nat
  overflowEndDate : Option Nat
deriving DecidableEq, Repr, Inhabited

/-- `config.Config` as seen by the scheduler.  `allTeams` is the value of
`Config.AllTeams()` (the concatenation of the divisions' team lists). -/
structure Config where
  season : Season
  allTeams : List String
  rules : Rules
  guidelines : Guidelines
deriving DecidableEq, Repr, Inhabited

/-- `rejectionReason`. -/
inductive RejectionReason where
  | rejectSlotUsed
  | rejectTimeslotCap
  | rejectDoublePlay
  | rejectConsecutiveDays
  | rejectMaxWeekGames
  | reject3In4Days
deriving DecidableEq, Repr, Inhabited

/-- The read-only part of the Go `scheduler` struct: the configuration and
the immutable slot and game lists (never written after `newScheduler`). -/
structure Env where
  cfg : Config
  slots : List Slot
  overflowSlots : List Slot
  games : List Game
deriving DecidableEq, Repr, Inhabited

/-- The mutable part of the Go `scheduler` struct.  Maps are total
functions with the Go zero value for missing keys. -/
@[ext]
structure SState where
  assignments : List Assignment
  usedSlots : Slot → Bool
  teamDates : String → List Nat
  teamGames : String → Int
  /-- The key set of the Go `teamGames` map (insertion order): `++` on a
  missing key inserts it, and `len(s.teamGames)` is read by `scoreSlot`. -/
  teamGamesKeys : List String
  slotTimeCnt : TimeKey → Int
  matchupDate : MatchupKey → Option Nat
  rejections : RejectionReason → Int
  unscheduled : List Game
  stuckOnGame : Option Game

/-- `newScheduler`'s freshly-initialized mutable state. -/
def SState.init : SState where
  assignments := []
  usedSlots := fun _ => false
  teamDates := fun _ => []
  teamGames := fun _ => 0
  teamGamesKeys := []
  slotTimeCnt := fun _ => 0
  matchupDate := fun _ => none
  rejections := fun _ => 0
  unscheduled := []
  stuckOnGame := none

/-- The abstraction of Go's seeded `math/rand` generator: `gameShuffle s`
is the permutation `rng.Shuffle` applies to the games list under seed `s`,
and `idxShuffle s k` the permutation applied to an index list by the `k`-th
subsequent shuffle call of the same generator.  All theorems quantify over
the shuffler, so the concrete PRNG is one instance. -/
structure Shuffler where
  gameShuffle : Nat → List Game → List Game
  idxShuffle : Nat → Nat → List Nat → List Nat

/-- The identity shuffler (used to evaluate the model on concrete inputs). -/
def Shuffler.id : Shuffler where
  gameShuffle := fun _ l => l
  idxShuffle := fun _ _ l => l

/-- `insertSorted`: insert a date before the first element not less than it. -/
def insertSorted (dates : List Nat) (d : Nat) : List Nat :=
  match dates with
  | [] => [d]
  | x :: rest => if x < d then x :: insertSorted rest d else d :: x :: rest

/-- `removeDate`: remove the first occurrence of a date, if any. -/
def removeDate (dates : List Nat) (d : Nat) : List Nat :=
  match dates with
  | [] => []
  | x :: rest => if x = d then rest else x :: removeDate rest d

/-- One insertion step of the Go in-place insertion sorts (an element
bubbles left past strictly greater elements, so insertion is stable). -/
def insertLe {α : Type} (lt : α → α → Bool) (p : α) : List α → List α
  | [] => [p]
  | q :: rest => if lt p q then p :: q :: rest else q :: insertLe lt p rest

/-- The Go insertion-sort pattern (`sortDatesInPlace`, `sortByDifficulty`,
the rematch-violation sort): stable sort by a strict comparison. -/
def insertionSortBy {α : Type} (lt : α → α → Bool) (l : List α) : List α :=
  l.foldl (fun acc x => insertLe lt x acc) []

/-- `sortDatesInPlace`. -/
def sortDatesInPlace (dates : List Nat) : List Nat :=
  insertionSortBy (fun a b => a < b) dates

/-- Insert a team into the `teamGames` key set if missing (what a Go `++`
or `--` on the map entry does to the key set). -/
def touchKey (keys : List String) (tm : String) : List String :=
  if keys.contains tm then keys else keys ++ [tm]

/-- One step of the latest-date accumulation (`!ok || other.Slot.Date.After(existing)`). -/
def latestStep (acc : Option Nat) (d : Nat) : Option Nat :=
  match acc with
  | none => some d
  | some e => if e < d then some d else some e

namespace SState

/-- `scheduler.assign`. -/
def assign (st : SState) (game : Game) (slot : Slot) : SState :=
  let mk := normalizeMatchup game.home game.away
  { st with
    assignments := st.assignments ++ [⟨game, slot⟩]
    usedSlots := fun sk => if sk = slot then true else st.usedSlots sk
    slotTimeCnt := fun tk =>
      if tk = ⟨slot.date, slot.time⟩ then st.slotTimeCnt tk + 1 else st.slotTimeCnt tk
    teamDates := fun tm =>
      if tm = game.away then
        insertSorted (if game.home = game.away then
            insertSorted (st.teamDates tm) slot.date else st.teamDates tm) slot.date
      else if tm = game.home then insertSorted (st.teamDates tm) slot.date
      else st.teamDates tm
    teamGames := fun tm =>
      st.teamGames tm + (if tm = game.home then 1 else 0) + (if tm = game.away then 1 else 0)
    teamGamesKeys := touchKey (touchKey st.teamGamesKeys game.home) game.away
    matchupDate := fun k => if k = mk then some slot.date else st.matchupDate k }

/-- The date recomputation at the end of `scheduler.unassign`: the latest
slot date among the assignments of the pair `mk`, `none` if it has none. -/
def pairLatest (assignments : List Assignment) (mk : MatchupKey) : Option Nat :=
  assignments.foldl
    (fun acc a =>
      if normalizeMatchup a.game.home a.game.away = mk then latestStep acc a.slot.date
      else acc)
    none

/-- `scheduler.unassign`.  The Go code indexes `s.assignments[idx]` and
would panic out of range; the code only ever calls it with a valid index,
and the model returns the state unchanged there. -/
def unassign (st : SState) (idx : Nat) : Assignment × SState :=
  match st.assignments[idx]? with
  | none => (default, st)
  | some a =>
    let remaining := st.assignments.take idx ++ st.assignments.drop (idx + 1)
    let mk := normalizeMatchup a.game.home a.game.away
    (a,
      { st with
        assignments := remaining
        usedSlots := fun sk => if sk = a.slot then false else st.usedSlots sk
        slotTimeCnt := fun tk =>
          if tk = ⟨a.slot.date, a.slot.time⟩ then st.slotTimeCnt tk - 1 else st.slotTimeCnt tk
        teamDates := fun tm =>
          if tm = a.game.away then
            removeDate (if a.game.home = a.game.away then
                removeDate (st.teamDates tm) a.slot.date else st.teamDates tm) a.slot.date
          else if tm = a.game.home then removeDate (st.teamDates tm) a.slot.date
          else st.teamDates tm
        teamGames := fun tm =>
          st.teamGames tm - (if tm = a.game.home then 1 else 0)
            - (if tm = a.game.away then 1 else 0)
        teamGamesKeys := touchKey (touchKey st.teamGamesKeys a.game.home) a.game.away
        matchupDate := fun k => if k = mk then pairLatest remaining mk else st.matchupDate k })

end SState

/-- The list Go's `wouldMakeConsecutive` builds: the new date inserted
before the first strictly later date (after all dates ≤ it). -/
def insertForScan (dates : List Nat) (nd : Nat) : List Nat :=
  match dates with
  | [] => [nd]
  | d :: rest => if nd < d then nd :: d :: rest else d :: insertForScan rest nd

/-- The streak scan of `wouldMakeConsecutive`: `prev` is the previous date,
`consecutive` the current streak length.  A gap of exactly one day extends
the streak (Go tests `Sub == 24h`; with `Nat` dates, `d - prev == 1`). -/
def consecLoop (maxConsec : Int) : Int → Nat → List Nat → Bool
  | _, _, [] => false
  | consecutive, prev, d :: rest =>
    if d - prev == 1 then
      if consecutive + 1 > maxConsec then true
      else consecLoop maxConsec (consecutive + 1) d rest
    else consecLoop maxConsec 1 d rest

namespace SState

/-- `scheduler.wouldMakeConsecutive`. -/
def wouldMakeConsecutive (st : SState) (team : String) (newDate : Nat) (maxConsec : Int) : Bool :=
  match insertForScan (st.teamDates team) newDate with
  | [] => false
  | d :: rest => consecLoop maxConsec 1 d rest

/-- `scheduler.gamesInWindow`: dates of the team inside
`[center-(w-1), center+(w-1)]` (bounds taken in `ℤ`, as Go's `AddDate`
can step before the epoch). -/
def gamesInWindow (st : SState) (team : String) (center : Nat) (windowDays : Nat) : Nat :=
  let start : Int := (center : Int) - ((windowDays : Int) - 1)
  let stop : Int := (center : Int) + ((windowDays : Int) - 1)
  (st.teamDates team).countP (fun d : Nat => decide (start ≤ (d : Int)) && decide ((d : Int) ≤ stop))

/-- `scheduler.sundayGames`. -/
def sundayGames (st : SState) (team : String) : Int :=
  ((st.teamDates team).countP (fun d => isSunday d) : Int)

/-- `scheduler.saturdayGames`. -/
def saturdayGames (st : SState) (team : String) : Int :=
  ((st.teamDates team).countP (fun d => isSaturday d) : Int)

end SState

/-- `scheduler.hardConstraintCheck`.  Go returns `(0, true)` on success;
`0` is `rejectSlotUsed`. -/
def hardConstraintCheck (env : Env) (st : SState) (game : Game) (slot : Slot) :
    RejectionReason × Bool :=
  if st.slotTimeCnt ⟨slot.date, slot.time⟩ ≥ env.cfg.rules.maxGamesPerTimeslot then
    (.rejectTimeslotCap, false)
  else if (st.teamDates game.home).contains slot.date
      || (st.teamDates game.away).contains slot.date then
    (.rejectDoublePlay, false)
  else if st.wouldMakeConsecutive game.home slot.date env.cfg.rules.maxConsecutiveDays
      || st.wouldMakeConsecutive game.away slot.date env.cfg.rules.maxConsecutiveDays then
    (.rejectConsecutiveDays, false)
  else if ((st.teamDates game.home).countP (fun d => isoWeek d == isoWeek slot.date) : Int)
        ≥ env.cfg.rules.maxGamesPerWeek
      || ((st.teamDates game.away).countP (fun d => isoWeek d == isoWeek slot.date) : Int)
        ≥ env.cfg.rules.maxGamesPerWeek then
    (.rejectMaxWeekGames, false)
  else if env.cfg.rules.max3In4Days
      && (decide (st.gamesInWindow game.home slot.date 4 ≥ 2)
          || decide (st.gamesInWindow game.away slot.date 4 ≥ 2)) then
    (.reject3In4Days, false)
  else
    (.rejectSlotUsed, true)

/-- `scheduler.minSundayGames`.  Go folds `min` from `MaxInt` over all teams
and maps the untouched `MaxInt` back to 0; with a non-empty team list the
result is the minimum (every count is far below `MaxInt`). -/
def minSundayGames (env : Env) (st : SState) : Int :=
  match env.cfg.allTeams with
  | [] => 0
  | t :: rest => rest.foldl (fun m tm => min m (st.sundayGames tm)) (st.sundayGames t)

/-- `scheduler.scoreSlot` in exact arithmetic (`Frac` in place of
`float64`).  No theorem in this file depends on the numeric value of this
function.  (With a non-empty `teamGames` map but an empty team list, Go
divides by zero; that pathological corner sits outside every claim.) -/
def scoreSlot (env : Env) (st : SState) (game : Game) (slot : Slot) : Frac :=
  let score : Frac := .ofInt 0
  -- balance pace
  let score :=
    if env.cfg.guidelines.balancePace then
      let homeGames : Frac := .ofInt (st.teamGames game.home)
      let awayGames : Frac := .ofInt (st.teamGames game.away)
      let avgGames : Frac :=
        if st.teamGamesKeys.length > 0 then
          ⟨(st.teamGamesKeys.map st.teamGames).sum, (env.cfg.allTeams.length : Int)⟩
        else .ofInt 0
      ((score.add (((homeGames.sub avgGames).abs).mul (.ofInt 2))).add
        (((awayGames.sub avgGames).abs).mul (.ofInt 2)))
    else score
  -- avoid rematches too soon
  let score :=
    match st.matchupDate (normalizeMatchup game.home game.away) with
    | some lastDate =>
      let daysBetween : Int := (slot.date : Int) - (lastDate : Int)
      let minDays : Int := env.cfg.guidelines.minDaysBetweenSameMatchup
      if daysBetween < minDays then score.add (.ofInt ((minDays - daysBetween) * 5))
      else score
    | none => score
  -- balance Sunday games
  let score :=
    if env.cfg.guidelines.balanceSundayGames && isSunday slot.date then
      let maxAllowed := minSundayGames env st + 2
      let add (sc : Frac) (team : String) : Frac :=
        let sunCount := st.sundayGames team
        (if sunCount ≥ maxAllowed then sc.add (.ofInt 1000) else sc).add
          (.ofInt (sunCount * 10))
      add (add score game.home) game.away
    else score
  -- prefer earlier dates slightly
  let dayNum : Int := (slot.date : Int) - (env.cfg.season.startDate : Int)
  let score := score.add ⟨dayNum, 10⟩
  -- prefer later time slots
  match timeMinutes slot.time with
  | some m => score.sub ⟨(m : Int), 1000⟩
  | none => score

/-- The repeated best-candidate scan of the Go loops: fold over candidates
in order, keeping the first strictly-smallest legal score. -/
def selectMin {α : Type} (legal : α → Bool) (score : α → Frac) (cands : List α) :
    Option (α × Frac) :=
  cands.foldl
    (fun best c =>
      if legal c then
        let s := score c
        match best with
        | none => some (c, s)
        | some (b, bs) => if s.blt bs then some (c, s) else some (b, bs)
      else best)
    none

/-- `scheduler.slotDates`: sorted unique dates of a weekday (Go numbering,
Sunday = 0) among the regular slots. -/
def slotDates (env : Env) (day : Nat) : List Nat :=
  let dates := env.slots.foldl
    (fun acc slot =>
      if weekday slot.date == day && !acc.contains slot.date then acc ++ [slot.date] else acc)
    []
  sortDatesInPlace dates

/-- `scheduler.slotsForDate`: indices of regular slots on a date. -/
def slotsForDate (env : Env) (date : Nat) : List Nat :=
  env.slots.enum.filterMap (fun p => if p.2.date = date then some p.1 else none)

/-- `scheduler.countAvailableSlots`. -/
def countAvailableSlots (env : Env) (st : SState) (game : Game) : Nat :=
  env.slots.countP (fun slot =>
    !st.usedSlots slot && (hardConstraintCheck env st game slot).2)

/-- `scheduler.sortByDifficulty`: stable insertion sort by the (pre-computed)
count of currently-available slots, fewest first. -/
def sortByDifficulty (env : Env) (st : SState) (games : List Game) : List Game :=
  (insertionSortBy (fun a b => a.2 < b.2)
    (games.map (fun g => (g, countAvailableSlots env st g)))).map Prod.fst

/-- The rejection-counter updates of the `assignGame` scan (they touch no
field the scan reads, so they are applied as one batch). -/
def assignGameRejections (env : Env) (st : SState) (game : Game) :
    RejectionReason → Int :=
  env.slots.foldl
    (fun rej slot =>
      if st.usedSlots slot then
        fun r => if r = .rejectSlotUsed then rej r + 1 else rej r
      else
        match hardConstraintCheck env st game slot with
        | (reason, false) => fun r => if r = reason then rej r + 1 else rej r
        | (_, true) => rej)
    st.rejections

/-- `scheduler.assignGame`: greedy placement into the best-scoring legal
regular slot (first-found on score ties). -/
def assignGame (env : Env) (st : SState) (game : Game) : Bool × SState :=
  let st := { st with rejections := assignGameRejections env st game }
  match selectMin
      (fun slot => !st.usedSlots slot && (hardConstraintCheck env st game slot).2)
      (fun slot => scoreSlot env st game slot) env.slots with
  | none => (false, st)
  | some (slot, _) => (true, st.assign game slot)

/-- The index loop of `scheduler.findMatchRecursive`: try each candidate
index whose teams are unused, recursing through `next` (the next level of
the backtracking) and restoring on failure (pure state passing). -/
def findMatchLoop (games : List Game)
    (next : List String → List Nat → Option (List Nat)) :
    List Nat → List String → List Nat → Option (List Nat)
  | [], _, _ => none
  | i :: rest, teamUsed, acc =>
    let g := games.getD i default
    if teamUsed.contains g.home || teamUsed.contains g.away then
      findMatchLoop games next rest teamUsed acc
    else
      match next (g.home :: g.away :: teamUsed) (acc ++ [i]) with
      | some m => some m
      | none => findMatchLoop games next rest teamUsed acc

/-- `scheduler.findMatchRecursive`, with `needed - len(match)` as the
structural fuel (Go tests `len(*match) == needed` at entry, and every
recursive call grows the match by one). -/
def findMatchRecursive (games : List Game) (indices : List Nat) :
    Nat → List String → List Nat → Option (List Nat)
  | 0, _, acc => some acc
  | fuel + 1, teamUsed, acc =>
    findMatchLoop games (findMatchRecursive games indices fuel) indices teamUsed acc

/-- `scheduler.findPerfectMatch`: a team-disjoint set of `len(teams)/2`
still-unscheduled games covering every team, found by randomized
backtracking.  The index shuffle is the `ctr`-th shuffle call of the
attempt's generator. -/
def findPerfectMatch (_env : Env) (S : Shuffler) (seed ctr : Nat) (games : List Game)
    (scheduled : List Nat) (teams : List String) : Option (List Nat) :=
  let needed := teams.length / 2
  let indices := (List.range games.length).filter (fun i => !scheduled.contains i)
  let shuffled := S.idxShuffle seed ctr indices
  findMatchRecursive games shuffled needed [] []

/-- The per-matched-game placement of phase 1: best-scoring legal Saturday
slot of the date, if any. -/
def placeSaturdayGame (env : Env) (satSlots : List Nat) (stSched : SState × List Nat)
    (gi : Nat) (games : List Game) : SState × List Nat :=
  let (st, scheduled) := stSched
  let game := games.getD gi default
  match selectMin
      (fun si =>
        let slot := env.slots.getD si default
        !st.usedSlots slot && (hardConstraintCheck env st game slot).2)
      (fun si => scoreSlot env st game (env.slots.getD si default)) satSlots with
  | none => (st, scheduled)
  | some (si, _) => (st.assign game (env.slots.getD si default), scheduled ++ [gi])

/-- `scheduler.scheduleSaturdays` (phase 1): for every Saturday, find a
perfect matching over the unscheduled pool and place each matched game in
its best legal Saturday slot.  Returns the new state, the games that remain
unscheduled, and the generator call counter. -/
def scheduleSaturdays (env : Env) (S : Shuffler) (seed : Nat) (st : SState)
    (games : List Game) (ctr : Nat) : SState × List Game × Nat :=
  let teams := env.cfg.allTeams
  let saturdays := slotDates env 6
  let (st, scheduled, ctr) := saturdays.foldl
    (fun (acc : SState × List Nat × Nat) sat =>
      let (st, scheduled, ctr) := acc
      let satSlots := slotsForDate env sat
      if satSlots.isEmpty then (st, scheduled, ctr)
      else
        match findPerfectMatch env S seed ctr games scheduled teams with
        | none => (st, scheduled, ctr + 1)
        | some mtch =>
          let (st, scheduled) :=
            mtch.foldl (fun p gi => placeSaturdayGame env satSlots p gi games) (st, scheduled)
          (st, scheduled, ctr + 1))
    (st, [], ctr)
  let remaining := games.enum.filterMap
    (fun p => if scheduled.contains p.1 then none else some p.2)
  (st, remaining, ctr)

/-- The inner while-loop of `scheduler.scheduleSundays`: repeatedly pick the
(game, slot) pair minimizing `10*(home+away Sunday count) + slot score`
subject to the fairness ceiling, until no pick remains or the date's
capacity `maxGames` is exhausted (the fuel). -/
def sundayLoop (env : Env) (games : List Game) (sunSlots : List Nat) :
    Nat → SState → List Nat → SState × List Nat
  | 0, st, scheduled => (st, scheduled)
  | fuel + 1, st, scheduled =>
    let maxAllowed := minSundayGames env st + 2
    let cands := games.enum.flatMap (fun p =>
      if scheduled.contains p.1 then []
      else
        let sunHome := st.sundayGames p.2.home
        let sunAway := st.sundayGames p.2.away
        if sunHome ≥ maxAllowed || sunAway ≥ maxAllowed then []
        else sunSlots.map (fun si => (p.1, si)))
    match selectMin
        (fun c : Nat × Nat =>
          let slot := env.slots.getD c.2 default
          let game := games.getD c.1 default
          !st.usedSlots slot && (hardConstraintCheck env st game slot).2)
        (fun c =>
          let game := games.getD c.1 default
          (Frac.ofInt ((st.sundayGames game.home + st.sundayGames game.away) * 10)).add
            (scoreSlot env st game (env.slots.getD c.2 default)))
        cands with
    | none => (st, scheduled)
    | some ((i, si), _) =>
      sundayLoop env games sunSlots fuel
        (st.assign (games.getD i default) (env.slots.getD si default)) (scheduled ++ [i])

/-- The number of currently-free slots on a date (the `availableSlots`
count at the head of a Sunday iteration). -/
def freeSlotsOn (env : Env) (st : SState) (date : Nat) : Nat :=
  (slotsForDate env date).countP (fun si => !st.usedSlots (env.slots.getD si default))

/-- One Sunday-date iteration of `scheduler.scheduleSundays`: play at most
`min(free slots this date, MaxGamesPerTimeslot)` games on this date. -/
def scheduleOneSunday (env : Env) (games : List Game) (sun : Nat)
    (acc : SState × List Nat) : SState × List Nat :=
  let (st, scheduled) := acc
  let sunSlots := slotsForDate env sun
  if sunSlots.isEmpty then (st, scheduled)
  else
    let availableSlots := freeSlotsOn env st sun
    let maxGames : Int :=
      if (availableSlots : Int) > env.cfg.rules.maxGamesPerTimeslot then
        env.cfg.rules.maxGamesPerTimeslot
      else (availableSlots : Int)
    sundayLoop env games sunSlots maxGames.toNat st scheduled

/-- `scheduler.scheduleSundays` (phase 2). -/
def scheduleSundays (env : Env) (st : SState) (games : List Game) :
    SState × List Game :=
  let sundays := slotDates env 0
  let (st, scheduled) := sundays.foldl (fun acc sun => scheduleOneSunday env games sun acc)
    (st, [])
  let remaining := games.enum.filterMap
    (fun p => if scheduled.contains p.1 then none else some p.2)
  (st, remaining)

/-- The victim search of `tryDisplaceAtDepth`: the index of the first
assignment whose slot has the given date, time and field. -/
def findAssignmentIdx (assignments : List Assignment) (slot : Slot) : Option Nat :=
  match assignments with
  | [] => none
  | a :: rest =>
    if a.slot = slot then some 0 else (findAssignmentIdx rest slot).map (· + 1)

/-- The slot loop of `scheduler.tryDisplaceAtDepth`: for each occupied
non-Sunday slot, evict its occupant, try the candidate there, re-seat the
victim directly or via `recurse` (one displacement level shallower), and
undo everything before moving on when the chain fails. -/
def displaceLoop (env : Env) (recurse : SState → Game → Bool × SState)
    (game : Game) : SState → List Slot → Bool × SState
  | st, [] => (false, st)
  | st, slot :: rest =>
    if !st.usedSlots slot then displaceLoop env recurse game st rest
    else if isSunday slot.date then displaceLoop env recurse game st rest
    else
      match findAssignmentIdx st.assignments slot with
      | none => displaceLoop env recurse game st rest
      | some victimIdx =>
        let (victim, st1) := st.unassign victimIdx
        if (hardConstraintCheck env st1 game slot).2 then
          let st2 := st1.assign game slot
          let (ok, st3) := assignGame env st2 victim.game
          if ok then (true, st3)
          else
            let (ok2, st4) := recurse st3 victim.game
            if ok2 then (true, st4)
            else
              let st5 :=
                match findAssignmentIdx st4.assignments slot with
                | some i => (st4.unassign i).2
                | none => st4
              displaceLoop env recurse game (st5.assign victim.game victim.slot) rest
        else
          displaceLoop env recurse game (st1.assign victim.game victim.slot) rest

/-- `scheduler.tryDisplaceAtDepth`. -/
def tryDisplaceAtDepth (env : Env) : Nat → SState → Game → Bool × SState
  | 0, st, _ => (false, st)
  | depth + 1, st, game => displaceLoop env (tryDisplaceAtDepth env depth) game st env.slots

/-- `scheduler.tryDisplace` (max depth 3). -/
def tryDisplace (env : Env) (st : SState) (game : Game) : Bool × SState :=
  tryDisplaceAtDepth env 3 st game

/-- `scheduler.scheduleWithBacktracking` (phase 3): direct greedy placement,
then bounded displacement; the first game that fails both is recorded in
`stuckOnGame`, failures accumulate in the unscheduled list. -/
def scheduleWithBacktracking (env : Env) (st : SState) (games : List Game) :
    SState × List Game :=
  games.foldl
    (fun (acc : SState × List Game) game =>
      let (st, uns) := acc
      let (ok, st) := assignGame env st game
      if ok then (st, uns)
      else
        let (ok2, st) := tryDisplace env st game
        if ok2 then (st, uns)
        else
          let st :=
            if st.stuckOnGame = none then { st with stuckOnGame := some game } else st
          (st, uns ++ [game]))
    (st, [])

/-- `scheduler.scheduleOverflow` (phase 4): first-fit into the earliest
legal overflow slot, no displacement. -/
def scheduleOverflow (env : Env) (st : SState) (games : List Game) :
    SState × List Game :=
  games.foldl
    (fun (acc : SState × List Game) game =>
      let (st, uns) := acc
      match env.overflowSlots.find? (fun slot =>
          !st.usedSlots slot && (hardConstraintCheck env st game slot).2) with
      | some slot => (st.assign game slot, uns)
      | none => (st, uns ++ [game]))
    (st, [])

/-- `scheduler.trySchedule`: the four-phase pipeline of one attempt. -/
def trySchedule (env : Env) (S : Shuffler) (seed : Nat) (st : SState)
    (games : List Game) : Bool × SState :=
  let (st, remaining, _) := scheduleSaturdays env S seed st games 0
  let (st, remaining) := scheduleSundays env st remaining
  let remaining := sortByDifficulty env st remaining
  let (st, remaining) := scheduleWithBacktracking env st remaining
  let (st, remaining) :=
    if remaining.length > 0 && env.overflowSlots.length > 0 then
      scheduleOverflow env st remaining
    else (st, remaining)
  let st := { st with unscheduled := remaining }
  (st.unscheduled.isEmpty, st)

/-- The key set of the `matchups` grouping map built by `softScore` and
`buildMetrics`, in first-appearance order.  Go iterates this map in an
unspecified order; theorems that depend on the order quantify over it. -/
def matchupKeysOf (assignments : List Assignment) : List MatchupKey :=
  assignments.foldl
    (fun acc a =>
      let mk := normalizeMatchup a.game.home a.game.away
      if acc.contains mk then acc else acc ++ [mk])
    []

/-- The date list the `matchups` grouping map associates to a key
(assignment order, as Go appends). -/
def datesForKey (assignments : List Assignment) (mk : MatchupKey) : List Nat :=
  assignments.filterMap (fun a =>
    if normalizeMatchup a.game.home a.game.away = mk then some a.slot.date else none)

/-- `scheduler.overflowDaysUsed`: distinct assignment dates past the regular
season end, when an overflow window exists. -/
def overflowDaysUsed (env : Env) (st : SState) : Nat :=
  match env.cfg.season.overflowEndDate with
  | none => 0
  | some _ =>
    ((st.assignments.filterMap (fun a =>
        if env.cfg.season.endDate < a.slot.date then some a.slot.date else none)).dedup).length

/-- `scheduler.overflowGamesCount`. -/
def overflowGamesCount (env : Env) (st : SState) : Nat :=
  match env.cfg.season.overflowEndDate with
  | none => 0
  | some _ =>
    st.assignments.countP (fun a => decide (env.cfg.season.endDate < a.slot.date))

/-- `scheduler.latestOverflowDate` (Go's zero `time.Time` becomes date 0;
only read when at least one overflow game exists). -/
def latestOverflowDate (env : Env) (st : SState) : Nat :=
  match env.cfg.season.overflowEndDate with
  | none => 0
  | some _ =>
    st.assignments.foldl
      (fun latest a =>
        if env.cfg.season.endDate < a.slot.date && latest < a.slot.date then a.slot.date
        else latest)
      0

/-- The per-pair rematch-proximity penalty of `softScore`. -/
def rematchPenalty (minDays : Int) (dates : List Nat) : Int :=
  ((List.zip dates (dates.drop 1)).map (fun p =>
      let daysBetween : Int := (p.2 : Int) - (p.1 : Int)
      if daysBetween < minDays then (minDays - daysBetween) * 5 else 0)).sum

/-- The per-team count of 3-games-in-4-days occurrences (windows of three
consecutive scheduled dates spanning at most 3 days). -/
def threeIn4Count (dates : List Nat) : Nat :=
  (List.zip dates (dates.drop 2)).countP (fun p => decide ((p.2 : Int) - (p.1 : Int) ≤ 3))

/-- `scheduler.softScore`: the attempt-level score (lower is better).
Every term is an integer far below `2^53`, so the Go `float64` value is
this integer exactly.  Go folds the pace and rematch terms over map
iterations; addition is commutative, so the canonical key order gives the
same sum. -/
def softScore (env : Env) (st : SState) : Int :=
  let score : Int := 0
  -- pace imbalance (spread of the teamGames map values)
  let score :=
    match st.teamGamesKeys with
    | [] => score
    | t :: rest =>
      let mx := (t :: rest).foldl (fun m tm => max m (st.teamGames tm)) 0
      let mn := rest.foldl (fun m tm => min m (st.teamGames tm)) (st.teamGames t)
      score + (mx - mn)
  -- Saturday balance: heavy penalty for teams missing Saturdays
  let numSaturdays : Int := ((slotDates env 6).length : Int)
  let score := env.cfg.allTeams.foldl
    (fun sc team =>
      let satGames := st.saturdayGames team
      if satGames < numSaturdays then sc + (numSaturdays - satGames) * 50 else sc)
    score
  -- Sunday balance
  let score :=
    match env.cfg.allTeams with
    | [] => score
    | t :: rest =>
      let maxSun := (t :: rest).foldl (fun m tm => max m (st.sundayGames tm)) 0
      let minSun := rest.foldl (fun m tm => min m (st.sundayGames tm)) (st.sundayGames t)
      if maxSun - minSun > 2 then score + (maxSun - minSun) * 20 else score
  -- 3-in-4-days violations
  let score := env.cfg.allTeams.foldl
    (fun sc team => sc + (threeIn4Count (st.teamDates team) : Int) * 10) score
  -- rematch proximity
  let minDays : Int := env.cfg.guidelines.minDaysBetweenSameMatchup
  let score := (matchupKeysOf st.assignments).foldl
    (fun sc mk =>
      sc + rematchPenalty minDays (sortDatesInPlace (datesForKey st.assignments mk)))
    score
  -- overflow usage
  score + (overflowDaysUsed env st : Int) * 1000 + (overflowGamesCount env st : Int) * 100

/-- `scheduler.buildFailureError`: the aggregated failure message. -/
def buildFailureError (env : Env) (best : Option SState) : String :=
  let msg := "could not schedule all " ++ toString env.games.length ++ " games into "
    ++ toString env.slots.length ++ " available slots"
  match best with
  | none => msg
  | some b =>
    let msg := msg ++ "\n\nBest attempt: scheduled " ++ toString b.assignments.length
      ++ " of " ++ toString env.games.length ++ " games ("
      ++ toString b.unscheduled.length ++ " unscheduled)"
    let msg :=
      match b.stuckOnGame with
      | some g => msg ++ "\nFirst game that failed: " ++ g.home ++ " vs " ++ g.away
      | none => msg
    let msg := msg ++ "\n\nUnscheduled games:"
    b.unscheduled.foldl (fun m g => m ++ "\n  • " ++ g.home ++ " vs " ++ g.away) msg

/-- One restart attempt of `scheduler.run`: a fresh scheduler state, the
matchup list shuffled under seed `42 + attempt`, and the four-phase
pipeline. -/
def attemptOutcome (env : Env) (S : Shuffler) (attempt : Nat) : Bool × SState :=
  let shuffled := S.gameShuffle (42 + attempt) env.games
  trySchedule env S (42 + attempt) SState.init shuffled

/-- The 50 attempts of `scheduler.run`, attempt `i` seeded `42 + i`. -/
def runAttempts (env : Env) (S : Shuffler) : List (Bool × SState) :=
  (List.range 50).map (attemptOutcome env S)

/-- The best-result / best-failure selection fold of `scheduler.run`
(Go's `bestScore` starts at `MaxFloat64`, which every real score is below,
so the first success is always taken). -/
def runSelect (env : Env) (attempts : List (Bool × SState)) :
    Option (SState × Int) × Option SState :=
  attempts.foldl
    (fun (acc : Option (SState × Int) × Option SState) p =>
      let (best, bestFail) := acc
      let (ok, cand) := p
      if ok then
        let score := softScore env cand
        match best with
        | none => (some (cand, score), bestFail)
        | some (b, bs) => if score < bs then (some (cand, score), bestFail) else (some (b, bs), bestFail)
      else
        match bestFail with
        | none => (best, some cand)
        | some bf =>
          if cand.assignments.length > bf.assignments.length
              || (cand.assignments.length == bf.assignments.length
                  && softScore env cand < softScore env bf) then
            (best, some cand)
          else (best, some bf))
    (none, none)

/-- The field copy at the end of `scheduler.run` (Go copies exactly these
fields of the winning attempt into the outer scheduler; `teamGamesKeys` is
part of the `teamGames` map). -/
def copyFields (s b : SState) : SState :=
  { s with
    assignments := b.assignments
    usedSlots := b.usedSlots
    teamDates := b.teamDates
    teamGames := b.teamGames
    teamGamesKeys := b.teamGamesKeys
    slotTimeCnt := b.slotTimeCnt
    matchupDate := b.matchupDate }

/-- `scheduler.run`: 50 deterministic restart attempts, best-of selection,
and the aggregated error on total failure. -/
def run (env : Env) (S : Shuffler) : SState × Option String :=
  let (best, bestFail) := runSelect env (runAttempts env S)
  match best with
  | some (b, _) => (copyFields SState.init b, none)
  | none =>
    match bestFail with
    | some bf => (copyFields SState.init bf, some (buildFailureError env (some bf)))
    | none => (SState.init, some (buildFailureError env none))

/-- `schedule.TeamMetrics`. -/
structure TeamMetrics where
  games : Int
  saturday : Nat
  sunday : Nat
  violations : List String
deriving DecidableEq, Repr, Inhabited

/-- A rematch under-spacing record of `buildMetrics` (the Go
`rematchViolation` struct; `days` is integer-valued in the binary too). -/
structure RematchViolation where
  days : Int
  warning : String
  teamA : String
  teamB : String
deriving DecidableEq, Repr, Inhabited

/-- Update one team's metrics entry (Go indexes the map and would panic on
a team absent from `AllTeams()`; the model leaves the map unchanged). -/
def updateMetrics (m : String → Option TeamMetrics) (team : String)
    (f : TeamMetrics → TeamMetrics) : String → Option TeamMetrics :=
  fun t => if t = team then (m t).map f else m t

/-- The triples of consecutive scheduled dates a 3-in-4 scan inspects:
`(dates[i-2], dates[i-1], dates[i])`. -/
def dateTriples (dates : List Nat) : List (Nat × Nat × Nat) :=
  List.zip dates (List.zip (dates.drop 1) (dates.drop 2))

/-- The 3-games-in-4-days warning string. -/
def threeIn4Warning (team : String) (tr : Nat × Nat × Nat) : String :=
  team ++ " plays 3 games in 4 days: " ++ formatMMDD tr.1 ++ ", "
    ++ formatMMDD tr.2.1 ++ ", " ++ formatMMDD tr.2.2

/-- The rematch under-spacing warning string (`%.0f` on the integer-valued
non-negative gap renders as the plain integer). -/
def rematchWarning (mk : MatchupKey) (days minDays : Int) (d1 d2 : Nat) : String :=
  mk.a ++ " vs " ++ mk.b ++ " rematch after " ++ toString days ++ " days (min "
    ++ toString minDays ++ "): " ++ formatMMDD d1 ++ " and " ++ formatMMDD d2

/-- The rematch-violation records `buildMetrics` collects, for a given
enumeration order of the grouping map's keys: per key, adjacent meetings
(dates sorted) closer than the configured minimum. -/
def collectRematch (minDays : Int) (assignments : List Assignment)
    (order : List MatchupKey) : List RematchViolation :=
  order.flatMap (fun mk =>
    let dates := sortDatesInPlace (datesForKey assignments mk)
    (List.zip dates (dates.drop 1)).filterMap (fun p =>
      let days : Int := (p.2 : Int) - (p.1 : Int)
      if days < minDays then
        some ⟨days, rematchWarning mk days minDays p.1 p.2, mk.a, mk.b⟩
      else none))

/-- The severity sort of the rematch violations: fewest days first, stable. -/
def sortRematch (rvs : List RematchViolation) : List RematchViolation :=
  insertionSortBy (fun a b => a.days < b.days) rvs

/-- `scheduler.buildMetrics`, parameterized by the enumeration order of the
rematch grouping map's keys (Go map iteration order is unspecified). -/
def buildMetricsWith (env : Env) (st : SState) (order : List MatchupKey) :
    List String × (String → Option TeamMetrics) :=
  -- initialize metrics for all teams
  let metrics : String → Option TeamMetrics := env.cfg.allTeams.foldl
    (fun m team => fun t =>
      if t = team then
        some { games := st.teamGames team
               saturday := (st.teamDates team).countP (fun d => isSaturday d)
               sunday := (st.teamDates team).countP (fun d => isSunday d)
               violations := [] }
      else m t)
    (fun _ => none)
  -- check 3-in-4-days
  let wm := env.cfg.allTeams.foldl
    (fun (wm : List String × (String → Option TeamMetrics)) team =>
      ((dateTriples (st.teamDates team)).filter
          (fun tr => decide ((tr.2.2 : Int) - (tr.1 : Int) ≤ 3))).foldl
        (fun (wm : List String × (String → Option TeamMetrics)) tr =>
          let w := threeIn4Warning team tr
          (wm.1 ++ [w],
           updateMetrics wm.2 team (fun tm => { tm with violations := tm.violations ++ [w] })))
        wm)
    (([] : List String), metrics)
  -- check rematch proximity, worst (fewest days) first
  let rvs := sortRematch
    (collectRematch env.cfg.guidelines.minDaysBetweenSameMatchup st.assignments order)
  let wm := rvs.foldl
    (fun (wm : List String × (String → Option TeamMetrics)) rv =>
      (wm.1 ++ [rv.warning],
       updateMetrics
         (updateMetrics wm.2 rv.teamA
           (fun tm => { tm with violations := tm.violations ++ [rv.warning] }))
         rv.teamB (fun tm => { tm with violations := tm.violations ++ [rv.warning] })))
    wm
  let (warnings, metrics) := wm
  -- Sunday balance (max/min over the metrics map's values)
  let warnings :=
    match env.cfg.allTeams with
    | [] => warnings
    | t :: rest =>
      let sunOf := fun tm => match metrics tm with | some m => m.sunday | none => 0
      let maxSun := (t :: rest).foldl (fun mx tm => max mx (sunOf tm)) 0
      let minSun := rest.foldl (fun mn tm => min mn (sunOf tm)) (sunOf t)
      if maxSun - minSun > 1 then
        warnings ++ ["Sunday game imbalance: min " ++ toString minSun ++ ", max "
          ++ toString maxSun ++ " across teams"]
      else warnings
  -- overflow usage
  let warnings :=
    if overflowDaysUsed env st > 0 then
      warnings ++ ["Overflow: " ++ toString (overflowGamesCount env st) ++ " game(s) on "
        ++ toString (overflowDaysUsed env st)
        ++ " day(s) past end of regular season (through "
        ++ formatMMDD (latestOverflowDate env st) ++ ")"]
    else warnings
  (warnings, metrics)

/-- `scheduler.buildMetrics` with the canonical (first-appearance) key
enumeration. -/
def buildMetrics (env : Env) (st : SState) :
    List String × (String → Option TeamMetrics) :=
  buildMetricsWith env st (matchupKeysOf st.assignments)

/-- The per-team metrics map `buildMetrics` starts from (factored out of
`buildMetricsWith` for the order-independence analysis). -/
def metricsInit (env : Env) (st : SState) : String → Option TeamMetrics :=
  env.cfg.allTeams.foldl
    (fun m team => fun t =>
      if t = team then
        some { games := st.teamGames team
               saturday := (st.teamDates team).countP (fun d => isSaturday d)
               sunday := (st.teamDates team).countP (fun d => isSunday d)
               violations := [] }
      else m t)
    (fun _ => none)

/-- The 3-in-4-days stage of `buildMetricsWith`. -/
def threeIn4Fold (env : Env) (st : SState) :
    List String × (String → Option TeamMetrics) :=
  env.cfg.allTeams.foldl
    (fun (wm : List String × (String → Option TeamMetrics)) team =>
      ((dateTriples (st.teamDates team)).filter
          (fun tr => decide ((tr.2.2 : Int) - (tr.1 : Int) ≤ 3))).foldl
        (fun (wm : List String × (String → Option TeamMetrics)) tr =>
          let w := threeIn4Warning team tr
          (wm.1 ++ [w],
           updateMetrics wm.2 team (fun tm => { tm with violations := tm.violations ++ [w] })))
        wm)
    (([] : List String), metricsInit env st)

/-- The sorted violation list a given key order produces. -/
def rematchViolationsOf (env : Env) (st : SState) (order : List MatchupKey) :
    List RematchViolation :=
  sortRematch
    (collectRematch env.cfg.guidelines.minDaysBetweenSameMatchup st.assignments order)

/-- The rematch-warning stage of `buildMetricsWith`. -/
def rvFold (rvs : List RematchViolation)
    (wm : List String × (String → Option TeamMetrics)) :
    List String × (String → Option TeamMetrics) :=
  rvs.foldl
    (fun (wm : List String × (String → Option TeamMetrics)) rv =>
      (wm.1 ++ [rv.warning],
       updateMetrics
         (updateMetrics wm.2 rv.teamA
           (fun tm => { tm with violations := tm.violations ++ [rv.warning] }))
         rv.teamB (fun tm => { tm with violations := tm.violations ++ [rv.warning] })))
    wm

/-- The Sunday count `buildMetricsWith` reads off a metrics map entry. -/
def sunOf (M : String → Option TeamMetrics) (tm : String) : Nat :=
  match M tm with
  | some m => m.sunday
  | none => 0

/-- The closing stages of `buildMetricsWith` (Sunday balance and overflow
warnings), over an explicit team list. -/
def tailWarnings (env : Env) (st : SState) (teams : List String)
    (wm : List String × (String → Option TeamMetrics)) : List String :=
  let warnings := wm.1
  let metrics := wm.2
  let warnings :=
    match teams with
    | [] => warnings
    | t :: rest =>
      let maxSun := (t :: rest).foldl (fun mx tm => max mx (sunOf metrics tm)) 0
      let minSun := rest.foldl (fun mn tm => min mn (sunOf metrics tm)) (sunOf metrics t)
      if maxSun - minSun > 1 then
        warnings ++ ["Sunday game imbalance: min " ++ toString minSun ++ ", max "
          ++ toString maxSun ++ " across teams"]
      else warnings
  if overflowDaysUsed env st > 0 then
    warnings ++ ["Overflow: " ++ toString (overflowGamesCount env st) ++ " game(s) on "
      ++ toString (overflowDaysUsed env st)
      ++ " day(s) past end of regular season (through "
      ++ formatMMDD (latestOverflowDate env st) ++ ")"]
  else warnings

/-- `schedule.Result`. -/
structure Result where
  assignments : List Assignment
  warnings : List String
  teamGames : String → Int
  teamMetrics : String → Option TeamMetrics

/-- `schedule.Schedule`: the entry point.  Returns the Result (also on
failure, carrying the best partial attempt) and the error, if any. -/
def Schedule (cfg : Config) (slots overflowSlots : List Slot) (games : List Game)
    (S : Shuffler) : Result × Option String :=
  let env : Env := ⟨cfg, slots, overflowSlots, games⟩
  let (st, err) := run env S
  let (warnings, metrics) := buildMetrics env st
  ({ assignments := st.assignments
     warnings := warnings
     teamGames := st.teamGames
     teamMetrics := metrics }, err)

/-! ### Derived observations used to state the properties -/

/-- The slot keys of an assignment list (C3: no two may coincide). -/
def slotKeys (assignments : List Assignment) : List Slot :=
  assignments.map (·.slot)

/-- The dates one assignment contributes to a team's timeline (a
home-and-away degenerate matchup contributes its date twice, as the Go code
inserts it twice). -/
def contrib (a : Assignment) (tm : String) : List Nat :=
  (if a.game.home = tm then [a.slot.date] else [])
    ++ (if a.game.away = tm then [a.slot.date] else [])

/-- The dates a team's assignments contribute to its timeline. -/
def teamDatesOf (assignments : List Assignment) (tm : String) : List Nat :=
  assignments.flatMap (fun a => contrib a tm)

/-- The dates of a list falling in `[lo, hi]`. -/
def datesInRange (dates : List Nat) (lo hi : Int) : Nat :=
  dates.countP (fun d : Nat => decide (lo ≤ (d : Int)) && decide ((d : Int) ≤ hi))

/-- How many assignments a team has on a date. -/
def teamDayCount (assignments : List Assignment) (tm : String) (d : Nat) : Nat :=
  assignments.countP (fun a =>
    (a.game.home == tm || a.game.away == tm) && a.slot.date == d)

/-- How many assignments a team has with a date in `[lo, lo + span]`. -/
def teamSpanCount (assignments : List Assignment) (tm : String) (lo span : Int) : Nat :=
  assignments.countP (fun a =>
    (a.game.home == tm || a.game.away == tm)
      && decide (lo ≤ (a.slot.date : Int)) && decide ((a.slot.date : Int) ≤ lo + span))

/-- The per-day predicate of `teamDayCount`. -/
def dayPred (tm : String) (d : Nat) (a : Assignment) : Bool :=
  (a.game.home == tm || a.game.away == tm) && a.slot.date == d

/-- The window predicate of `teamSpanCount`. -/
def spanPred (tm : String) (lo span : Int) (a : Assignment) : Bool :=
  (a.game.home == tm || a.game.away == tm)
    && decide (lo ≤ (a.slot.date : Int)) && decide ((a.slot.date : Int) ≤ lo + span)

/-- The latest element of a date list, computed as the Go recomputation loop
folds it (`none` for the empty list). -/
def latestDate (dates : List Nat) : Option Nat :=
  dates.foldl latestStep none

/-- The search-state invariant maintained by every phase of one attempt:
the slot-occupancy map mirrors the assignment list and no slot key repeats;
each team's timeline is the (sorted) multiset of its assignments' dates;
no team has two assignments on one date; and, when the 3-in-4 rule is on,
no team has three assignments within four consecutive days. -/
structure Inv (env : Env) (st : SState) : Prop where
  used_iff : ∀ sk, st.usedSlots sk = true ↔ sk ∈ slotKeys st.assignments
  keys_nodup : (slotKeys st.assignments).Nodup
  dates_perm : ∀ tm, (st.teamDates tm).Perm (teamDatesOf st.assignments tm)
  dates_sorted : ∀ tm, List.Sorted (· ≤ ·) (st.teamDates tm)
  day_cap : ∀ tm d, teamDayCount st.assignments tm d ≤ 1
  window_cap : env.cfg.rules.max3In4Days = true →
    ∀ tm lo, teamSpanCount st.assignments tm lo 3 ≤ 2

/-- What a failed displacement chain restores (assignment order is permuted
— tried victims move to the end of the list — and `matchupDate`,
`rejections` and the `teamGames` key set keep their traces). -/
structure Restore (st st' : SState) : Prop where
  used : st'.usedSlots = st.usedSlots
  dates : st'.teamDates = st.teamDates
  perm : st'.assignments.Perm st.assignments

/-- The contract a displacement routine satisfies: it preserves the search
invariant and, when it reports failure, it has restored the occupancy map,
the timelines and the assignment multiset. -/
def DisplaceSpec (env : Env) (f : SState → Game → Bool × SState) : Prop :=
  ∀ st g, Inv env st →
    Inv env (f st g).2 ∧ ((f st g).1 = false → Restore st (f st g).2)

/-- The declarative contract of the best-attempt selection: the kept success
(if any) carries its own score, has minimal soft score among all successful
attempts and is the earliest one on ties; when no success exists the kept
failure places the most games, ties broken by lowest score then by
earliness.  An empty slot means no attempt of that kind exists. -/
def SelCharSucc (env : Env) (attempts : List (Bool × SState)) :
    Option (SState × Int) → Prop
  | none => ∀ p ∈ attempts, p.1 = false
  | some (b, s) =>
    s = softScore env b
    ∧ ∃ i, ∃ hlen : i < attempts.length,
        attempts.get ⟨i, hlen⟩ = (true, b)
        ∧ (∀ p ∈ attempts, p.1 = true → s ≤ softScore env p.2)
        ∧ (∀ p ∈ attempts.take i, p.1 = true → s < softScore env p.2)

def SelCharFail (env : Env) (attempts : List (Bool × SState)) :
    Option SState → Prop
  | none => ∀ p ∈ attempts, p.1 = true
  | some bf =>
    ∃ i, ∃ hlen : i < attempts.length,
      attempts.get ⟨i, hlen⟩ = (false, bf)
      ∧ (∀ p ∈ attempts, p.1 = false →
          p.2.assignments.length ≤ bf.assignments.length
          ∧ (p.2.assignments.length = bf.assignments.length →
              softScore env bf ≤ softScore env p.2))
      ∧ (∀ p ∈ attempts.take i, p.1 = false →
          p.2.assignments.length < bf.assignments.length
          ∨ (p.2.assignments.length = bf.assignments.length
              ∧ softScore env bf < softScore env p.2))

def SelChar (env : Env) (attempts : List (Bool × SState))
    (acc : Option (SState × Int) × Option SState) : Prop :=
  SelCharSucc env attempts acc.1 ∧ SelCharFail env attempts acc.2

/-! ### Concrete fixtures (teams A–D, dates around 2024-05/06) -/

def gAB : Game := ⟨"A", "B", "Game 1"⟩

def gBA : Game := ⟨"B", "A", "Game 2"⟩

def gAB2 : Game := ⟨"A", "B", "Game 3"⟩

def gAB3 : Game := ⟨"A", "B", "Game 4"⟩

def gCD : Game := ⟨"C", "D", "Game 5"⟩

def gCD2 : Game := ⟨"C", "D", "Game 6"⟩

def slotAt (d : Nat) : Slot := ⟨d, "17:45", "F1"⟩

/-- A two-team configuration, 14-day rematch spacing, permissive caps. -/
def cfgAB : Config where
  season := { startDate := 19870, endDate := 19900, overflowEndDate := none }
  allTeams := ["A", "B"]
  rules := { maxGamesPerDayPerTeam := 1, maxConsecutiveDays := 2, maxGamesPerWeek := 3,
             maxGamesPerTimeslot := 2, max3In4Days := false }
  guidelines := { minDaysBetweenSameMatchup := 14, balanceSundayGames := false,
                  balancePace := false }

/-- `cfgAB` with an overflow window (for the failure-path fixtures). -/
def cfgOv : Config :=
  { cfgAB with season := { startDate := 19870, endDate := 19900, overflowEndDate := some 19910 } }

/-- `cfgAB` with the per-day cap set to 0 (the schema allows it). -/
def cfgZero : Config :=
  { cfgAB with rules := { cfgAB.rules with maxGamesPerDayPerTeam := 0 } }

/-- `cfgAB` with the 3-in-4 hard cap enabled. -/
def cfg3in4 : Config :=
  { cfgAB with rules := { cfgAB.rules with max3In4Days := true } }

/-- A four-team configuration (for the metrics-order fixtures). -/
def cfgABCD : Config := { cfgAB with allTeams := ["A", "B", "C", "D"] }

def envC9 : Env := ⟨cfgAB, [slotAt 19872, slotAt 19879], [], [gAB, gBA]⟩

/-- A–B meet twice, 7 days apart (the worked rematch scenario). -/
def stC9 : SState := (SState.init.assign gAB (slotAt 19872)).assign gBA (slotAt 19879)

/-- The one warning the rematch scenario must produce. -/
def wC9 : String := "A vs B rematch after 7 days (min 14): 05/29 and 06/05"

def envC8 : Env := ⟨cfgABCD, [], [], [gAB, gCD, gAB2, gCD2]⟩

/-- Two pairs, each meeting twice with the same 7-day gap. -/
def stC8 : SState :=
  (((SState.init.assign gAB (slotAt 19872)).assign gCD (slotAt 19873)).assign
    gAB2 (slotAt 19879)).assign gCD2 (slotAt 19880)

def mkAB : MatchupKey := ⟨"A", "B"⟩

def mkCD : MatchupKey := ⟨"C", "D"⟩

/-- A–B have games on days 19880 and then 19875: the pair's history entry
holds 19875 (the last assigned date), not the latest date 19880. -/
def stC6 : SState := (SState.init.assign gAB (slotAt 19880)).assign gAB2 (slotAt 19875)

/-- One A–B game placed: a consistent state for the inverse-pair witness. -/
def stC7 : SState := SState.init.assign gAB (slotAt 19880)

/-- A one-team-pair environment with no regular slots and one overflow slot:
every attempt leaves `gBA` unplaced while overflow seats `gAB`. -/
def envOv : Env := ⟨cfgOv, [], [slotAt 19905], [gAB, gBA]⟩

/-- The aggregated error message `envOv` produces. -/
def errOv : String :=
  "could not schedule all 2 games into 0 available slots\n\nBest attempt: scheduled 1 of 2 games (1 unscheduled)\nFirst game that failed: A vs B\n\nUnscheduled games:\n  • B vs A"

/-! ## Proofs

First the order/list algebra of the incremental timeline updates, then the
assign/unassign algebra, the search invariant, the restart-selection
analysis, the metrics analysis, and finally one theorem per specification
claim. -/

theorem insertSorted_eq_orderedInsert (l : List Nat) (d : Nat) :
    insertSorted l d = List.orderedInsert (· ≤ ·) d l := by
  induction l with
  | nil => rfl
  | cons x rest ih =>
    simp only [insertSorted, List.orderedInsert]
    by_cases h : x < d
    · rw [if_pos h, if_neg (by omega), ih]
    · rw [if_neg h, if_pos (by omega)]

theorem insertSorted_perm (l : List Nat) (d : Nat) :
    (insertSorted l d).Perm (d :: l) := by
  rw [insertSorted_eq_orderedInsert]
  exact List.perm_orderedInsert _ _ _

theorem insertSorted_sorted {l : List Nat} (hs : List.Sorted (· ≤ ·) l) (d : Nat) :
    List.Sorted (· ≤ ·) (insertSorted l d) := by
  rw [insertSorted_eq_orderedInsert]
  exact List.Sorted.orderedInsert d l hs

theorem removeDate_eq_erase (l : List Nat) (d : Nat) : removeDate l d = l.erase d := by
  induction l with
  | nil => rfl
  | cons x rest ih =>
    rw [List.erase_cons]
    by_cases h : x = d
    · simp [removeDate, h]
    · simp only [removeDate, if_neg h, ih]
      rw [if_neg (by simp [h])]

theorem removeDate_sorted {l : List Nat} (hs : List.Sorted (· ≤ ·) l) (d : Nat) :
    List.Sorted (· ≤ ·) (removeDate l d) := by
  rw [removeDate_eq_erase]
  exact hs.sublist (List.erase_sublist d l)

theorem removeDate_insertSorted (l : List Nat) (d : Nat) :
    removeDate (insertSorted l d) d = l := by
  induction l with
  | nil => simp [insertSorted, removeDate]
  | cons x rest ih =>
    simp only [insertSorted]
    by_cases h : x < d
    · rw [if_pos h]
      simp only [removeDate]
      rw [if_neg (by omega), ih]
    · rw [if_neg h]
      simp [removeDate]

theorem insertSorted_removeDate {l : List Nat} {d : Nat}
    (hs : List.Sorted (· ≤ ·) l) (hm : d ∈ l) :
    insertSorted (removeDate l d) d = l := by
  induction l with
  | nil => cases hm
  | cons x rest ih =>
    rcases List.sorted_cons.1 hs with ⟨hx, hrest⟩
    by_cases h : x = d
    · subst h
      simp only [removeDate, if_pos rfl]
      cases rest with
      | nil => rfl
      | cons y t =>
        simp only [insertSorted]
        rw [if_neg (Nat.not_lt.2 (hx y (by simp)))]
    · have hd : d ∈ rest := by
        rcases List.mem_cons.1 hm with hm | hm
        · exact absurd hm.symm h
        · exact hm
      simp only [removeDate, if_neg h, insertSorted]
      rw [if_pos (Nat.lt_of_le_of_ne (hx d hd) (by simpa using h)), ih hrest hd]

/-! ### The latest-date accumulation -/

theorem latest_aux (l : List Nat) :
    ∀ a : Nat, ∃ m, l.foldl latestStep (some a) = some m
      ∧ (m = a ∨ m ∈ l) ∧ a ≤ m ∧ ∀ x ∈ l, x ≤ m := by
  induction l with
  | nil => exact fun a => ⟨a, rfl, Or.inl rfl, Nat.le_refl a, by simp⟩
  | cons x rest ih =>
    intro a
    simp only [List.foldl_cons, latestStep]
    by_cases h : a < x
    · rw [if_pos h]
      obtain ⟨m, hm, hmem, hle, hall⟩ := ih x
      refine ⟨m, hm, ?_, by omega, ?_⟩
      · rcases hmem with rfl | hmem
        · exact Or.inr (by simp)
        · exact Or.inr (by simp [hmem])
      · intro y hy
        rcases List.mem_cons.1 hy with rfl | hy
        · exact hle
        · exact hall y hy
    · rw [if_neg h]
      obtain ⟨m, hm, hmem, hle, hall⟩ := ih a
      refine ⟨m, hm, ?_, hle, ?_⟩
      · rcases hmem with rfl | hmem
        · exact Or.inl rfl
        · exact Or.inr (by simp [hmem])
      · intro y hy
        rcases List.mem_cons.1 hy with rfl | hy
        · omega
        · exact hall y hy

/-- `latestDate` really is the maximum of its list (and `none` exactly on
the empty list). -/
theorem latestDate_spec (l : List Nat) :
    (latestDate l = none ↔ l = [])
      ∧ ∀ m, latestDate l = some m → m ∈ l ∧ ∀ x ∈ l, x ≤ m := by
  cases l with
  | nil => exact ⟨by simp [latestDate], by simp [latestDate]⟩
  | cons x rest =>
    unfold latestDate
    simp only [List.foldl_cons, latestStep]
    obtain ⟨m, hm, hmem, hle, hall⟩ := latest_aux rest x
    rw [hm]
    refine ⟨by simp, ?_⟩
    rintro m' hm'
    obtain rfl : m = m' := by injection hm'
    constructor
    · rcases hmem with rfl | hmem
      · simp
      · simp [hmem]
    · intro y hy
      rcases List.mem_cons.1 hy with rfl | hy
      · exact hle
      · exact hall y hy

/-- The pair-filtered latest scan of `unassign` equals `latestDate` of the
pair's date list. -/
theorem pairLatest_eq_latestDate (assignments : List Assignment) (mk : MatchupKey) :
    SState.pairLatest assignments mk = latestDate (datesForKey assignments mk) := by
  suffices h : ∀ acc, assignments.foldl
      (fun acc a =>
        if normalizeMatchup a.game.home a.game.away = mk then latestStep acc a.slot.date
        else acc) acc
      = (datesForKey assignments mk).foldl latestStep acc from h none
  induction assignments with
  | nil => intro acc; rfl
  | cons a rest ih =>
    intro acc
    simp only [List.foldl_cons, datesForKey, List.filterMap_cons]
    by_cases h : normalizeMatchup a.game.home a.game.away = mk
    · rw [if_pos h, h]
      simp only [if_pos rfl, List.foldl_cons]
      exact ih _
    · rw [if_neg h, if_neg h]
      exact ih acc

/-! ### The assign/unassign algebra -/

theorem touchKey_of_contains (keys : List String) (tm : String)
    (h : keys.contains tm = true) : touchKey keys tm = keys := by
  unfold touchKey
  rw [if_pos h]

theorem append_singleton_getElem (l : List α) (a : α) : (l ++ [a])[l.length]? = some a := by
  rw [List.getElem?_append_right (Nat.le_refl _)]
  simp

theorem append_singleton_take (l : List α) (a : α) : (l ++ [a]).take l.length = l :=
  List.take_left l [a]

theorem append_singleton_drop (l : List α) (a : α) : (l ++ [a]).drop (l.length + 1) = [] := by
  apply List.drop_eq_nil_of_le
  simp

/-- Assigning then immediately unassigning restores the state exactly,
provided the slot was actually free, the pair's history entry was
consistent (equal to the recomputation the removal performs), and both
teams were already tracked in the `teamGames` map. -/
theorem assign_unassign_roundtrip (st : SState) (g : Game) (sl : Slot)
    (h1 : st.usedSlots sl = false)
    (h2 : st.matchupDate (normalizeMatchup g.home g.away)
      = SState.pairLatest st.assignments (normalizeMatchup g.home g.away))
    (h3 : st.teamGamesKeys.contains g.home = true)
    (h4 : st.teamGamesKeys.contains g.away = true) :
    (st.assign g sl).unassign st.assignments.length = (⟨g, sl⟩, st) := by
  have hassign : (st.assign g sl).assignments = st.assignments ++ [⟨g, sl⟩] := rfl
  unfold SState.unassign
  rw [hassign, append_singleton_getElem]
  simp only []
  have hrem : (st.assignments ++ [(⟨g, sl⟩ : Assignment)]).take st.assignments.length
      ++ (st.assignments ++ [(⟨g, sl⟩ : Assignment)]).drop (st.assignments.length + 1)
      = st.assignments := by
    rw [append_singleton_take, append_singleton_drop, List.append_nil]
  refine Prod.ext rfl ?_
  ext1
  case assignments => exact hrem
  case usedSlots =>
    funext sk
    by_cases h : sk = sl
    · subst h; simp [SState.assign, h1]
    · simp [SState.assign, h]
  case teamDates =>
    funext tm
    by_cases ha : tm = g.away
    · subst ha
      by_cases hh : g.home = g.away
      · simp [SState.assign, hh, removeDate_insertSorted]
      · simp [SState.assign, hh, removeDate_insertSorted]
    · by_cases hm : tm = g.home
      · subst hm
        simp [SState.assign, ha, removeDate_insertSorted]
      · simp [SState.assign, ha, hm]
  case teamGames =>
    funext tm
    simp only [SState.assign]
    omega
  case teamGamesKeys =>
    show touchKey (touchKey (touchKey (touchKey st.teamGamesKeys g.home) g.away) g.home) g.away
      = st.teamGamesKeys
    rw [touchKey_of_contains _ _ h3, touchKey_of_contains _ _ h4,
      touchKey_of_contains _ _ h3, touchKey_of_contains _ _ h4]
  case slotTimeCnt =>
    funext tk
    by_cases h : tk = (⟨sl.date, sl.time⟩ : TimeKey)
    · simp only [SState.assign, if_pos h]
      omega
    · simp [SState.assign, h]
  case matchupDate =>
    funext k
    by_cases h : k = normalizeMatchup g.home g.away
    · subst h
      simp [hrem, ← h2]
    · simp [SState.assign, h]
  case rejections => rfl
  case unscheduled => rfl
  case stuckOnGame => rfl

/-- After an `assign`, the pair's history entry is the newly assigned date
(even when an earlier-placed game of the pair has a later date). -/
theorem assign_matchupDate (st : SState) (g : Game) (sl : Slot) :
    (st.assign g sl).matchupDate (normalizeMatchup g.home g.away) = some sl.date := by
  simp [SState.assign]

/-- After an `unassign`, the removed pair's history entry is recomputed as
the latest date among the pair's remaining assignments. -/
theorem unassign_matchupDate (st : SState) (idx : Nat) (h : idx < st.assignments.length) :
    ((st.unassign idx).2).matchupDate
        (normalizeMatchup ((st.unassign idx).1).game.home ((st.unassign idx).1).game.away)
      = latestDate (datesForKey ((st.unassign idx).2).assignments
          (normalizeMatchup ((st.unassign idx).1).game.home ((st.unassign idx).1).game.away)) := by
  unfold SState.unassign
  rw [List.getElem?_eq_getElem h]
  simp only [if_pos rfl]
  exact pairLatest_eq_latestDate _ _

/-! ### The best-candidate scan -/

theorem selectMin_aux {α : Type} (legal : α → Bool) (score : α → Frac) :
    ∀ (cands : List α) (acc : Option (α × Frac)) (c : α) (s : Frac),
      cands.foldl
        (fun best c =>
          if legal c then
            let sc := score c
            match best with
            | none => some (c, sc)
            | some (b, bs) => if sc.blt bs then some (c, sc) else some (b, bs)
          else best) acc = some (c, s) →
      acc = some (c, s) ∨ (c ∈ cands ∧ legal c = true ∧ s = score c) := by
  intro cands
  induction cands with
  | nil => intro acc c s h; exact Or.inl h
  | cons x rest ih =>
    intro acc c s h
    simp only [List.foldl_cons] at h
    by_cases hx : legal x = true
    · rw [if_pos hx] at h
      cases acc with
      | none =>
        rcases ih _ _ _ h with h' | h'
        · injection h' with h'
          obtain ⟨rfl, rfl⟩ := Prod.mk.injEq .. ▸ h'
          exact Or.inr ⟨by simp, hx, rfl⟩
        · exact Or.inr ⟨by simp [h'.1], h'.2.1, h'.2.2⟩
      | some p =>
        obtain ⟨b, bs⟩ := p
        dsimp only [] at h
        by_cases hlt : (score x).blt bs = true
        · rw [if_pos hlt] at h
          rcases ih _ _ _ h with h' | h'
          · injection h' with h'
            obtain ⟨rfl, rfl⟩ := Prod.mk.injEq .. ▸ h'
            exact Or.inr ⟨by simp, hx, rfl⟩
          · exact Or.inr ⟨by simp [h'.1], h'.2.1, h'.2.2⟩
        · rw [if_neg hlt] at h
          rcases ih _ _ _ h with h' | h'
          · exact Or.inl h'
          · exact Or.inr ⟨by simp [h'.1], h'.2.1, h'.2.2⟩
    · rw [if_neg hx] at h
      rcases ih _ _ _ h with h' | h'
      · exact Or.inl h'
      · exact Or.inr ⟨by simp [h'.1], h'.2.1, h'.2.2⟩

/-- A selected candidate was in the list, was legal, and carries its own
score. -/
theorem selectMin_spec {α : Type} (legal : α → Bool) (score : α → Frac)
    (cands : List α) (c : α) (s : Frac) (h : selectMin legal score cands = some (c, s)) :
    c ∈ cands ∧ legal c = true ∧ s = score c := by
  rcases selectMin_aux legal score cands none c s h with h' | h'
  · cases h'
  · exact h'

/-! ### Counting lemmas for the invariant -/

theorem slotKeys_append (l : List Assignment) (a : Assignment) :
    slotKeys (l ++ [a]) = slotKeys l ++ [a.slot] := by
  simp [slotKeys]

theorem teamDatesOf_append (l : List Assignment) (a : Assignment) (tm : String) :
    teamDatesOf (l ++ [a]) tm = teamDatesOf l tm ++ contrib a tm := by
  simp [teamDatesOf]

theorem teamDatesOf_cons (a : Assignment) (l : List Assignment) (tm : String) :
    teamDatesOf (a :: l) tm = contrib a tm ++ teamDatesOf l tm := by
  simp [teamDatesOf]

theorem teamDayCount_eq (asg : List Assignment) (tm : String) (d : Nat) :
    teamDayCount asg tm d = asg.countP (dayPred tm d) := rfl

theorem teamSpanCount_eq (asg : List Assignment) (tm : String) (lo span : Int) :
    teamSpanCount asg tm lo span = asg.countP (spanPred tm lo span) := rfl

/-- An assignment matching the per-day predicate contributes its date to
the team's timeline. -/
theorem contrib_count_of_dayPred {tm : String} {d : Nat} {a : Assignment}
    (h : dayPred tm d a = true) : 1 ≤ (contrib a tm).count d := by
  unfold dayPred at h
  simp only [Bool.and_eq_true, Bool.or_eq_true, beq_iff_eq] at h
  obtain ⟨hteam, hdate⟩ := h
  unfold contrib
  rw [List.count_append]
  rcases hteam with h' | h'
  · rw [if_pos h']
    simp [hdate]
  · rw [if_pos h']
    simp [hdate]

/-- A team has at most as many assignments on a date as occurrences of that
date in its timeline multiset. -/
theorem teamDayCount_le_count (asg : List Assignment) (tm : String) (d : Nat) :
    teamDayCount asg tm d ≤ (teamDatesOf asg tm).count d := by
  induction asg with
  | nil => simp [teamDayCount, teamDatesOf]
  | cons a rest ih =>
    rw [teamDayCount_eq, List.countP_cons, teamDatesOf_cons, List.count_append]
    rw [teamDayCount_eq] at ih
    by_cases h : dayPred tm d a = true
    · have := contrib_count_of_dayPred h
      rw [if_pos h]
      omega
    · rw [if_neg h]
      omega

/-- An assignment matching the window predicate contributes a date inside
the window to the team's timeline. -/
theorem contrib_range_of_spanPred {tm : String} {lo span : Int} {a : Assignment}
    (h : spanPred tm lo span a = true) :
    1 ≤ (contrib a tm).countP
      (fun d : Nat => decide (lo ≤ (d : Int)) && decide ((d : Int) ≤ lo + span)) := by
  unfold spanPred at h
  simp only [Bool.and_eq_true, Bool.or_eq_true, beq_iff_eq, decide_eq_true_eq] at h
  obtain ⟨⟨hteam, hlo⟩, hhi⟩ := h
  unfold contrib
  rw [List.countP_append]
  rcases hteam with h' | h'
  · rw [if_pos h']
    simp [List.countP_cons, hlo, hhi]
  · rw [if_pos h']
    simp [List.countP_cons, hlo, hhi]

/-- A team has at most as many assignments dated inside a window as its
timeline has dates inside that window. -/
theorem teamSpanCount_le_range (asg : List Assignment) (tm : String) (lo span : Int) :
    teamSpanCount asg tm lo span ≤ datesInRange (teamDatesOf asg tm) lo (lo + span) := by
  induction asg with
  | nil => simp [teamSpanCount, teamDatesOf, datesInRange]
  | cons a rest ih =>
    rw [teamSpanCount_eq, List.countP_cons, teamDatesOf_cons]
    unfold datesInRange at ih ⊢
    rw [List.countP_append]
    rw [teamSpanCount_eq] at ih
    by_cases h : spanPred tm lo span a = true
    · have hc := contrib_range_of_spanPred h
      rw [if_pos h]
      omega
    · rw [if_neg h]
      omega

/-- Narrowing the window cannot increase the count. -/
theorem teamSpanCount_mono (asg : List Assignment) (tm : String) {lo span lo' span' : Int}
    (h1 : lo' ≤ lo) (h2 : lo + span ≤ lo' + span') :
    teamSpanCount asg tm lo span ≤ teamSpanCount asg tm lo' span' := by
  rw [teamSpanCount_eq, teamSpanCount_eq]
  apply List.countP_mono_left
  intro a _ ha
  unfold spanPred at ha ⊢
  simp only [Bool.and_eq_true, decide_eq_true_eq] at ha ⊢
  exact ⟨⟨ha.1.1, by omega⟩, by omega⟩

/-! ### Invariant preservation by the two mutating operations -/

theorem Restore.refl (st : SState) : Restore st st := ⟨rfl, rfl, List.Perm.refl _⟩

theorem Restore.comp {a b c : SState} (h1 : Restore a b) (h2 : Restore b c) : Restore a c :=
  ⟨h2.used.trans h1.used, h2.dates.trans h1.dates, h2.perm.trans h1.perm⟩

theorem teamDatesOf_perm {l1 l2 : List Assignment} (h : l1.Perm l2) (tm : String) :
    (teamDatesOf l1 tm).Perm (teamDatesOf l2 tm) :=
  List.Perm.flatMap_right _ h

theorem teamDatesOf_append' (l1 l2 : List Assignment) (tm : String) :
    teamDatesOf (l1 ++ l2) tm = teamDatesOf l1 tm ++ teamDatesOf l2 tm := by
  simp [teamDatesOf]

/-- The invariant only looks at the occupancy map, the timelines and the
assignment multiset, so a state that restores them inherits it. -/
theorem Inv.of_restore (env : Env) {st st' : SState} (h : Restore st st')
    (hi : Inv env st) : Inv env st' := by
  have hk : (slotKeys st'.assignments).Perm (slotKeys st.assignments) := by
    unfold slotKeys
    exact h.perm.map _
  refine ⟨?_, ?_, ?_, ?_, ?_, ?_⟩
  · intro sk
    rw [h.used]
    exact (hi.used_iff sk).trans hk.mem_iff.symm
  · exact hk.nodup_iff.2 hi.keys_nodup
  · intro tm
    rw [h.dates]
    exact (hi.dates_perm tm).trans (teamDatesOf_perm h.perm.symm tm)
  · intro tm
    rw [h.dates]
    exact hi.dates_sorted tm
  · intro tm d
    rw [teamDayCount_eq, h.perm.countP_eq]
    exact hi.day_cap tm d
  · intro hf tm lo
    rw [teamSpanCount_eq, h.perm.countP_eq]
    exact hi.window_cap hf tm lo

/-- Changing only diagnostics fields preserves the invariant. -/
theorem Inv.rejections (env : Env) {st : SState} (hi : Inv env st)
    (r : RejectionReason → Int) : Inv env { st with rejections := r } :=
  ⟨hi.used_iff, hi.keys_nodup, hi.dates_perm, hi.dates_sorted, hi.day_cap, hi.window_cap⟩

theorem Inv.stuck (env : Env) {st : SState} (hi : Inv env st)
    (s : Option Game) : Inv env { st with stuckOnGame := s } :=
  ⟨hi.used_iff, hi.keys_nodup, hi.dates_perm, hi.dates_sorted, hi.day_cap, hi.window_cap⟩

theorem Inv.unsched (env : Env) {st : SState} (hi : Inv env st)
    (u : List Game) : Inv env { st with unscheduled := u } :=
  ⟨hi.used_iff, hi.keys_nodup, hi.dates_perm, hi.dates_sorted, hi.day_cap, hi.window_cap⟩

/-- What passing the hard-constraint check guarantees about the state. -/
theorem hardCheck_pass (env : Env) (st : SState) (g : Game) (sl : Slot)
    (h : (hardConstraintCheck env st g sl).2 = true) :
    (st.teamDates g.home).contains sl.date = false
    ∧ (st.teamDates g.away).contains sl.date = false
    ∧ (env.cfg.rules.max3In4Days = true →
        st.gamesInWindow g.home sl.date 4 ≤ 1 ∧ st.gamesInWindow g.away sl.date 4 ≤ 1) := by
  unfold hardConstraintCheck at h
  split_ifs at h with h1 h2 h3 h4 h5
  all_goals simp at h
  have h2' : (st.teamDates g.home).contains sl.date = false
      ∧ (st.teamDates g.away).contains sl.date = false := by
    constructor <;> (revert h2; cases (st.teamDates g.home).contains sl.date
      <;> cases (st.teamDates g.away).contains sl.date <;> simp)
  refine ⟨h2'.1, h2'.2, fun hf => ?_⟩
  rw [hf] at h5
  simp only [Bool.true_and, Bool.or_eq_true, decide_eq_true_eq] at h5
  push_neg at h5
  omega

theorem gamesInWindow_eq (st : SState) (tm : String) (c : Nat) :
    st.gamesInWindow tm c 4 = datesInRange (st.teamDates tm) ((c : Int) - 3) ((c : Int) + 3) := by
  unfold SState.gamesInWindow datesInRange
  norm_num

/-- Absence from the timeline gives a zero per-day assignment count. -/
theorem dayCount_zero {st : SState} {tm : String} {d : Nat}
    (hperm : (st.teamDates tm).Perm (teamDatesOf st.assignments tm))
    (hc : (st.teamDates tm).contains d = false) :
    teamDayCount st.assignments tm d = 0 := by
  have hmem : d ∉ teamDatesOf st.assignments tm := by
    intro hm
    rw [← hperm.mem_iff] at hm
    exact absurd hm (by simpa using hc)
  have := teamDayCount_le_count st.assignments tm d
  rw [List.count_eq_zero.2 hmem] at this
  omega

/-- A small `gamesInWindow` bound gives a small windowed assignment count. -/
theorem spanCount_le_one {st : SState} {tm : String} {c : Nat}
    (hperm : (st.teamDates tm).Perm (teamDatesOf st.assignments tm))
    (hW : st.gamesInWindow tm c 4 ≤ 1) :
    teamSpanCount st.assignments tm ((c : Int) - 3) 6 ≤ 1 := by
  have h1 := teamSpanCount_le_range st.assignments tm ((c : Int) - 3) 6
  have h2 : ((c : Int) - 3) + 6 = (c : Int) + 3 := by omega
  rw [h2] at h1
  rw [gamesInWindow_eq] at hW
  unfold datesInRange at h1 hW
  rw [hperm.countP_eq] at hW
  omega

/-- `assign` preserves the invariant when the slot is free, neither team
already plays that date, and (if the 3-in-4 cap is on) neither team has two
games within three days of the new date. -/
theorem assign_inv (env : Env) {st : SState} (g : Game) (sl : Slot) (hi : Inv env st)
    (hfree : st.usedSlots sl = false)
    (hd1 : teamDayCount st.assignments g.home sl.date = 0)
    (hd2 : teamDayCount st.assignments g.away sl.date = 0)
    (hw : env.cfg.rules.max3In4Days = true →
        teamSpanCount st.assignments g.home ((sl.date : Int) - 3) 6 ≤ 1
        ∧ teamSpanCount st.assignments g.away ((sl.date : Int) - 3) 6 ≤ 1) :
    Inv env (st.assign g sl) := by
  have hnotmem : sl ∉ slotKeys st.assignments := by
    intro hm
    rw [(hi.used_iff sl).2 hm] at hfree
    cases hfree
  have hkeys : slotKeys ((st.assign g sl).assignments) = slotKeys st.assignments ++ [sl] :=
    slotKeys_append _ _
  refine ⟨?_, ?_, ?_, ?_, ?_, ?_⟩
  · intro sk
    rw [hkeys]
    show (if sk = sl then true else st.usedSlots sk) = true ↔ _
    by_cases h : sk = sl
    · subst h
      simp
    · rw [if_neg h, hi.used_iff sk]
      simp [h]
  · rw [hkeys, List.nodup_append]
    exact ⟨hi.keys_nodup, List.nodup_singleton sl, by simpa using hnotmem⟩
  · intro tm
    have hbase := hi.dates_perm tm
    show ((st.assign g sl).teamDates tm).Perm
      (teamDatesOf (st.assignments ++ [⟨g, sl⟩]) tm)
    rw [teamDatesOf_append]
    show (if tm = g.away then
        insertSorted (if g.home = g.away then
            insertSorted (st.teamDates tm) sl.date else st.teamDates tm) sl.date
      else if tm = g.home then insertSorted (st.teamDates tm) sl.date
      else st.teamDates tm).Perm _
    by_cases ha : tm = g.away
    · rw [if_pos ha]
      by_cases hh : g.home = g.away
      · rw [if_pos hh]
        have hc : contrib ⟨g, sl⟩ tm = [sl.date, sl.date] := by
          unfold contrib
          rw [if_pos (hh.trans ha.symm), if_pos ha.symm]
          rfl
        rw [hc]
        refine (insertSorted_perm _ _).trans ?_
        refine ((insertSorted_perm _ _).cons _).trans ?_
        refine ((hbase.cons _).cons _).trans ?_
        exact @List.perm_append_comm _ [sl.date, sl.date] _
      · rw [if_neg hh]
        have hc : contrib ⟨g, sl⟩ tm = [sl.date] := by
          unfold contrib
          rw [if_neg (fun e : g.home = tm => hh (e.trans ha)), if_pos ha.symm]
          rfl
        rw [hc]
        refine (insertSorted_perm _ _).trans ?_
        refine (hbase.cons _).trans ?_
        exact @List.perm_append_comm _ [sl.date] _
    · rw [if_neg ha]
      by_cases hm : tm = g.home
      · rw [if_pos hm]
        have hc : contrib ⟨g, sl⟩ tm = [sl.date] := by
          unfold contrib
          rw [if_pos hm.symm, if_neg (fun e : g.away = tm => ha e.symm)]
          rfl
        rw [hc]
        refine (insertSorted_perm _ _).trans ?_
        refine (hbase.cons _).trans ?_
        exact @List.perm_append_comm _ [sl.date] _
      · rw [if_neg hm]
        have hc : contrib ⟨g, sl⟩ tm = [] := by
          unfold contrib
          rw [if_neg (fun e : g.home = tm => hm e.symm),
            if_neg (fun e : g.away = tm => ha e.symm)]
          rfl
        rw [hc, List.append_nil]
        exact hbase
  · intro tm
    show List.Sorted _ (if tm = g.away then
        insertSorted (if g.home = g.away then
            insertSorted (st.teamDates tm) sl.date else st.teamDates tm) sl.date
      else if tm = g.home then insertSorted (st.teamDates tm) sl.date
      else st.teamDates tm)
    by_cases ha : tm = g.away
    · rw [if_pos ha]
      by_cases hh : g.home = g.away
      · rw [if_pos hh]
        exact insertSorted_sorted (insertSorted_sorted (hi.dates_sorted tm) _) _
      · rw [if_neg hh]
        exact insertSorted_sorted (hi.dates_sorted tm) _
    · rw [if_neg ha]
      by_cases hm : tm = g.home
      · rw [if_pos hm]
        exact insertSorted_sorted (hi.dates_sorted tm) _
      · rw [if_neg hm]
        exact hi.dates_sorted tm
  · intro tm d
    show teamDayCount (st.assignments ++ [⟨g, sl⟩]) tm d ≤ 1
    rw [teamDayCount_eq, List.countP_append]
    rw [teamDayCount_eq] at hd1 hd2
    by_cases h : dayPred tm d ⟨g, sl⟩ = true
    · have hteam : g.home = tm ∨ g.away = tm := by
        unfold dayPred at h
        simp only [Bool.and_eq_true, Bool.or_eq_true, beq_iff_eq] at h
        exact h.1
      have hdate : d = sl.date := by
        unfold dayPred at h
        simp only [Bool.and_eq_true, Bool.or_eq_true, beq_iff_eq] at h
        exact h.2.symm
      subst hdate
      have hzero : List.countP (dayPred tm sl.date) st.assignments = 0 := by
        rcases hteam with h' | h'
        · exact h' ▸ hd1
        · exact h' ▸ hd2
      simp [hzero, List.countP_cons, h]
    · have := hi.day_cap tm d
      rw [teamDayCount_eq] at this
      simp [List.countP_cons, h]
      omega
  · intro hf tm lo
    show teamSpanCount (st.assignments ++ [⟨g, sl⟩]) tm lo 3 ≤ 2
    rw [teamSpanCount_eq, List.countP_append]
    by_cases h : spanPred tm lo 3 ⟨g, sl⟩ = true
    · have hfacts : (g.home = tm ∨ g.away = tm)
          ∧ lo ≤ (sl.date : Int) ∧ (sl.date : Int) ≤ lo + 3 := by
        unfold spanPred at h
        simp only [Bool.and_eq_true, Bool.or_eq_true, beq_iff_eq, decide_eq_true_eq] at h
        exact ⟨h.1.1, h.1.2, h.2⟩
      have hmono : teamSpanCount st.assignments tm lo 3
          ≤ teamSpanCount st.assignments tm ((sl.date : Int) - 3) 6 :=
        teamSpanCount_mono _ _ (by omega) (by omega)
      have hb : teamSpanCount st.assignments tm ((sl.date : Int) - 3) 6 ≤ 1 := by
        rcases hfacts.1 with h' | h'
        · exact h' ▸ (hw hf).1
        · exact h' ▸ (hw hf).2
      have hmono' : List.countP (spanPred tm lo 3) st.assignments
          ≤ List.countP (spanPred tm ((sl.date : Int) - 3) 6) st.assignments := hmono
      have hb' : List.countP (spanPred tm ((sl.date : Int) - 3) 6) st.assignments ≤ 1 := hb
      simp [List.countP_cons, h]
      omega
    · have hcap : List.countP (spanPred tm lo 3) st.assignments ≤ 2 := hi.window_cap hf tm lo
      simp [List.countP_cons, h]
      omega

/-- `unassign` at a valid index, written out. -/
theorem unassign_eq (st : SState) (idx : Nat) (hlt : idx < st.assignments.length) :
    st.unassign idx = (st.assignments[idx],
      { st with
        assignments := st.assignments.take idx ++ st.assignments.drop (idx + 1)
        usedSlots := fun sk => if sk = st.assignments[idx].slot then false else st.usedSlots sk
        slotTimeCnt := fun tk =>
          if tk = ⟨st.assignments[idx].slot.date, st.assignments[idx].slot.time⟩ then
            st.slotTimeCnt tk - 1
          else st.slotTimeCnt tk
        teamDates := fun tm =>
          if tm = st.assignments[idx].game.away then
            removeDate (if st.assignments[idx].game.home = st.assignments[idx].game.away then
                removeDate (st.teamDates tm) st.assignments[idx].slot.date
              else st.teamDates tm) st.assignments[idx].slot.date
          else if tm = st.assignments[idx].game.home then
            removeDate (st.teamDates tm) st.assignments[idx].slot.date
          else st.teamDates tm
        teamGames := fun tm =>
          st.teamGames tm - (if tm = st.assignments[idx].game.home then 1 else 0)
            - (if tm = st.assignments[idx].game.away then 1 else 0)
        teamGamesKeys := touchKey (touchKey st.teamGamesKeys st.assignments[idx].game.home)
          st.assignments[idx].game.away
        matchupDate := fun k =>
          if k = normalizeMatchup st.assignments[idx].game.home st.assignments[idx].game.away then
            SState.pairLatest (st.assignments.take idx ++ st.assignments.drop (idx + 1))
              (normalizeMatchup st.assignments[idx].game.home st.assignments[idx].game.away)
          else st.matchupDate k }) := by
  unfold SState.unassign
  rw [List.getElem?_eq_getElem hlt]

/-- A list with one occurrence (as multiset) removed. -/
theorem removeDate_perm_of_perm {X Y : List Nat} {d : Nat} (h : X.Perm (d :: Y)) :
    (removeDate X d).Perm Y := by
  rw [removeDate_eq_erase]
  have h2 := h.erase d
  rwa [List.erase_cons_head] at h2

/-- `unassign` at a valid index preserves the invariant. -/
theorem unassign_inv (env : Env) {st : SState} (idx : Nat)
    (hlt : idx < st.assignments.length) (hi : Inv env st) :
    Inv env (st.unassign idx).2 := by
  rw [unassign_eq st idx hlt]
  set a := st.assignments[idx] with ha
  set l1 := st.assignments.take idx with hl1
  set l2 := st.assignments.drop (idx + 1) with hl2
  have hsplit : st.assignments = l1 ++ a :: l2 := by
    rw [hl1, hl2, ha]
    rw [← List.drop_eq_getElem_cons hlt, List.take_append_drop]
  have hkeysplit : slotKeys st.assignments = slotKeys l1 ++ a.slot :: slotKeys l2 := by
    rw [hsplit]
    simp [slotKeys]
  have hknodup : (a.slot :: (slotKeys l1 ++ slotKeys l2)).Nodup := by
    have := hi.keys_nodup
    rw [hkeysplit, List.nodup_middle] at this
    exact this
  have hremkeys : slotKeys (l1 ++ l2) = slotKeys l1 ++ slotKeys l2 := by
    simp [slotKeys]
  refine ⟨?_, ?_, ?_, ?_, ?_, ?_⟩
  · intro sk
    show (if sk = a.slot then false else st.usedSlots sk) = true ↔ sk ∈ slotKeys (l1 ++ l2)
    rw [hremkeys]
    by_cases h : sk = a.slot
    · subst h
      simp only [if_pos rfl]
      constructor
      · intro hf; cases hf
      · intro hm
        exact absurd hm (List.nodup_cons.1 hknodup).1
    · rw [if_neg h, hi.used_iff sk, hkeysplit]
      simp [h]
  · show (slotKeys (l1 ++ l2)).Nodup
    rw [hremkeys]
    exact (List.nodup_cons.1 hknodup).2
  · intro tm
    have hbase := hi.dates_perm tm
    have hsplitD : teamDatesOf st.assignments tm
        = teamDatesOf l1 tm ++ (contrib a tm ++ teamDatesOf l2 tm) := by
      rw [hsplit, teamDatesOf_append', teamDatesOf_cons]
    have htarget : teamDatesOf (l1 ++ l2) tm = teamDatesOf l1 tm ++ teamDatesOf l2 tm :=
      teamDatesOf_append' _ _ _
    show (if tm = a.game.away then
        removeDate (if a.game.home = a.game.away then
            removeDate (st.teamDates tm) a.slot.date else st.teamDates tm) a.slot.date
      else if tm = a.game.home then removeDate (st.teamDates tm) a.slot.date
      else st.teamDates tm).Perm (teamDatesOf (l1 ++ l2) tm)
    rw [htarget]
    by_cases hq : tm = a.game.away
    · rw [if_pos hq]
      by_cases hh : a.game.home = a.game.away
      · rw [if_pos hh]
        have hc : contrib a tm = [a.slot.date, a.slot.date] := by
          unfold contrib
          rw [if_pos (hh.trans hq.symm), if_pos hq.symm]
          rfl
        have hX : (st.teamDates tm).Perm
            (a.slot.date :: a.slot.date :: (teamDatesOf l1 tm ++ teamDatesOf l2 tm)) := by
          refine hbase.trans ?_
          rw [hsplitD, hc]
          refine List.Perm.trans ?_ ((List.perm_middle).cons a.slot.date)
          show (teamDatesOf l1 tm ++ (a.slot.date :: a.slot.date :: teamDatesOf l2 tm)).Perm
            (a.slot.date :: (teamDatesOf l1 tm ++ a.slot.date :: teamDatesOf l2 tm))
          exact List.perm_middle
        exact removeDate_perm_of_perm (removeDate_perm_of_perm hX)
      · rw [if_neg hh]
        have hc : contrib a tm = [a.slot.date] := by
          unfold contrib
          rw [if_neg (fun e : a.game.home = tm => hh (e.trans hq)), if_pos hq.symm]
          rfl
        have hX : (st.teamDates tm).Perm
            (a.slot.date :: (teamDatesOf l1 tm ++ teamDatesOf l2 tm)) := by
          refine hbase.trans ?_
          rw [hsplitD, hc]
          exact List.perm_middle
        exact removeDate_perm_of_perm hX
    · rw [if_neg hq]
      by_cases hm : tm = a.game.home
      · rw [if_pos hm]
        have hc : contrib a tm = [a.slot.date] := by
          unfold contrib
          rw [if_pos hm.symm, if_neg (fun e : a.game.away = tm => hq e.symm)]
          rfl
        have hX : (st.teamDates tm).Perm
            (a.slot.date :: (teamDatesOf l1 tm ++ teamDatesOf l2 tm)) := by
          refine hbase.trans ?_
          rw [hsplitD, hc]
          exact List.perm_middle
        exact removeDate_perm_of_perm hX
      · rw [if_neg hm]
        have hc : contrib a tm = [] := by
          unfold contrib
          rw [if_neg (fun e : a.game.home = tm => hm e.symm),
            if_neg (fun e : a.game.away = tm => hq e.symm)]
          rfl
        refine hbase.trans ?_
        rw [hsplitD, hc]
        simp
  · intro tm
    show List.Sorted _ (if tm = a.game.away then
        removeDate (if a.game.home = a.game.away then
            removeDate (st.teamDates tm) a.slot.date else st.teamDates tm) a.slot.date
      else if tm = a.game.home then removeDate (st.teamDates tm) a.slot.date
      else st.teamDates tm)
    by_cases hq : tm = a.game.away
    · rw [if_pos hq]
      by_cases hh : a.game.home = a.game.away
      · rw [if_pos hh]
        exact removeDate_sorted (removeDate_sorted (hi.dates_sorted tm) _) _
      · rw [if_neg hh]
        exact removeDate_sorted (hi.dates_sorted tm) _
    · rw [if_neg hq]
      by_cases hm : tm = a.game.home
      · rw [if_pos hm]
        exact removeDate_sorted (hi.dates_sorted tm) _
      · rw [if_neg hm]
        exact hi.dates_sorted tm
  · intro tm d
    have hcap := hi.day_cap tm d
    rw [teamDayCount_eq] at hcap ⊢
    rw [hsplit] at hcap
    rw [List.countP_append] at hcap ⊢
    rw [List.countP_cons] at hcap
    omega
  · intro hf tm lo
    have hcap := hi.window_cap hf tm lo
    rw [teamSpanCount_eq] at hcap ⊢
    rw [hsplit] at hcap
    rw [List.countP_append] at hcap ⊢
    rw [List.countP_cons] at hcap
    omega

/-! ### The displacement rollback -/

theorem findAssignmentIdx_some {asg : List Assignment} {slot : Slot} :
    ∀ {i : Nat}, findAssignmentIdx asg slot = some i →
      ∃ hlt : i < asg.length, asg[i].slot = slot := by
  induction asg with
  | nil => intro i h; cases h
  | cons a rest ih =>
    intro i h
    unfold findAssignmentIdx at h
    by_cases ha : a.slot = slot
    · rw [if_pos ha] at h
      injection h with h
      subst h
      exact ⟨Nat.succ_pos _, ha⟩
    · rw [if_neg ha] at h
      rcases Option.map_eq_some'.1 h with ⟨j, hj, rfl⟩
      obtain ⟨hlt, hsl⟩ := ih hj
      exact ⟨Nat.succ_lt_succ hlt, hsl⟩

theorem findAssignmentIdx_none {asg : List Assignment} {slot : Slot}
    (h : findAssignmentIdx asg slot = none) : ∀ b ∈ asg, b.slot ≠ slot := by
  induction asg with
  | nil => intro b hb; cases hb
  | cons a rest ih =>
    intro b hb
    unfold findAssignmentIdx at h
    by_cases ha : a.slot = slot
    · rw [if_pos ha] at h; cases h
    · rw [if_neg ha] at h
      rcases List.mem_cons.1 hb with rfl | hb'
      · exact ha
      · exact ih (by simpa using h) b hb'

/-- A member assignment of one of the team's games puts its date in the
team's timeline. -/
theorem date_mem_teamDatesOf {asg : List Assignment} {a : Assignment}
    (ha : a ∈ asg) {tm : String} (h : a.game.home = tm ∨ a.game.away = tm) :
    a.slot.date ∈ teamDatesOf asg tm := by
  rcases List.append_of_mem ha with ⟨u, v, rfl⟩
  rw [teamDatesOf_append', teamDatesOf_cons]
  have : a.slot.date ∈ contrib a tm := by
    unfold contrib
    rcases h with h' | h'
    · rw [if_pos h']; simp
    · rw [if_pos h']; simp
  simp [this]

/-- A degenerate (same-team) member assignment puts its date in the
timeline twice. -/
theorem date_count_teamDatesOf {asg : List Assignment} {a : Assignment}
    (ha : a ∈ asg) {tm : String} (h1 : a.game.home = tm) (h2 : a.game.away = tm) :
    2 ≤ (teamDatesOf asg tm).count a.slot.date := by
  rcases List.append_of_mem ha with ⟨u, v, rfl⟩
  rw [teamDatesOf_append', teamDatesOf_cons]
  have hc : contrib a tm = [a.slot.date, a.slot.date] := by
    unfold contrib
    rw [if_pos h1, if_pos h2]
    rfl
  rw [List.count_append, List.count_append, hc]
  simp
  omega

/-- Re-adding the assignment removed by `unassign`, over any state that
restores the intermediate one, restores the original occupancy, timelines
and assignment multiset. -/
theorem reassign_restore (env : Env) {st : SState} (idx : Nat)
    (hlt : idx < st.assignments.length) (hi : Inv env st)
    {stmid : SState} (hmid : Restore (st.unassign idx).2 stmid) :
    Restore st (stmid.assign ((st.unassign idx).1).game ((st.unassign idx).1).slot) := by
  rw [unassign_eq st idx hlt] at hmid ⊢
  set a := st.assignments[idx] with ha
  have hamem : a ∈ st.assignments := by
    rw [ha]
    exact List.getElem_mem hlt
  refine ⟨?_, ?_, ?_⟩
  · funext sk
    show (if sk = a.slot then true else stmid.usedSlots sk) = st.usedSlots sk
    rw [hmid.used]
    by_cases h : sk = a.slot
    · rw [if_pos h, h]
      exact ((hi.used_iff a.slot).2 (List.mem_map_of_mem (·.slot) hamem)).symm
    · rw [if_neg h]
      show (if sk = a.slot then false else st.usedSlots sk) = st.usedSlots sk
      rw [if_neg h]
  · funext tm
    show (if tm = a.game.away then
        insertSorted (if a.game.home = a.game.away then
            insertSorted (stmid.teamDates tm) a.slot.date else stmid.teamDates tm) a.slot.date
      else if tm = a.game.home then insertSorted (stmid.teamDates tm) a.slot.date
      else stmid.teamDates tm) = st.teamDates tm
    have hmid' : stmid.teamDates tm
        = (if tm = a.game.away then
            removeDate (if a.game.home = a.game.away then
                removeDate (st.teamDates tm) a.slot.date else st.teamDates tm) a.slot.date
          else if tm = a.game.home then removeDate (st.teamDates tm) a.slot.date
          else st.teamDates tm) := by
      rw [hmid.dates]
    by_cases hq : tm = a.game.away
    · rw [if_pos hq]
      rw [if_pos hq] at hmid'
      by_cases hh : a.game.home = a.game.away
      · rw [if_pos hh]
        rw [if_pos hh] at hmid'
        rw [hmid']
        have hcnt : 2 ≤ (st.teamDates tm).count a.slot.date := by
          rw [List.Perm.count_eq (hi.dates_perm tm)]
          exact date_count_teamDatesOf hamem (hh.trans hq.symm) hq.symm
        have hmem1 : a.slot.date ∈ st.teamDates tm :=
          List.count_pos_iff.1 (by omega)
        have hmem2 : a.slot.date ∈ removeDate (st.teamDates tm) a.slot.date := by
          rw [removeDate_eq_erase]
          apply List.count_pos_iff.1
          rw [List.count_erase_self]
          omega
        rw [insertSorted_removeDate (removeDate_sorted (hi.dates_sorted tm) _) hmem2,
          insertSorted_removeDate (hi.dates_sorted tm) hmem1]
      · rw [if_neg hh]
        rw [if_neg hh] at hmid'
        rw [hmid']
        have hmem1 : a.slot.date ∈ st.teamDates tm := by
          rw [List.Perm.mem_iff (hi.dates_perm tm)]
          exact date_mem_teamDatesOf hamem (Or.inr hq.symm)
        exact insertSorted_removeDate (hi.dates_sorted tm) hmem1
    · rw [if_neg hq]
      rw [if_neg hq] at hmid'
      by_cases hm : tm = a.game.home
      · rw [if_pos hm]
        rw [if_pos hm] at hmid'
        rw [hmid']
        have hmem1 : a.slot.date ∈ st.teamDates tm := by
          rw [List.Perm.mem_iff (hi.dates_perm tm)]
          exact date_mem_teamDatesOf hamem (Or.inl hm.symm)
        exact insertSorted_removeDate (hi.dates_sorted tm) hmem1
      · rw [if_neg hm]
        rw [if_neg hm] at hmid'
        exact hmid'
  · show (stmid.assignments ++ [a]).Perm st.assignments
    have h1 : stmid.assignments.Perm
        (st.assignments.take idx ++ st.assignments.drop (idx + 1)) := hmid.perm
    have hsplit : st.assignments
        = st.assignments.take idx ++ a :: st.assignments.drop (idx + 1) := by
      rw [ha, ← List.drop_eq_getElem_cons hlt, List.take_append_drop]
    rw [hsplit]
    refine (h1.append_right [a]).trans ?_
    exact (List.perm_append_singleton a _).trans List.perm_middle.symm

/-- A free slot plus a passed hard-constraint check licenses an `assign`. -/
theorem assign_inv_of_check (env : Env) {st : SState} (g : Game) (sl : Slot)
    (hi : Inv env st) (hfree : st.usedSlots sl = false)
    (hcheck : (hardConstraintCheck env st g sl).2 = true) :
    Inv env (st.assign g sl) := by
  obtain ⟨hc1, hc2, hc3⟩ := hardCheck_pass env st g sl hcheck
  refine assign_inv env g sl hi hfree ?_ ?_ ?_
  · exact dayCount_zero (hi.dates_perm _) hc1
  · exact dayCount_zero (hi.dates_perm _) hc2
  · intro hf
    obtain ⟨hw1, hw2⟩ := hc3 hf
    exact ⟨spanCount_le_one (hi.dates_perm _) hw1, spanCount_le_one (hi.dates_perm _) hw2⟩

/-- `assignGame` preserves the invariant. -/
theorem assignGame_inv (env : Env) {st : SState} (g : Game) (hi : Inv env st) :
    Inv env (assignGame env st g).2 := by
  unfold assignGame
  dsimp only []
  have hi' : Inv env { st with rejections := assignGameRejections env st g } :=
    Inv.rejections env hi _
  cases hsel : selectMin
      (fun slot => !SState.usedSlots { st with rejections := assignGameRejections env st g } slot
        && (hardConstraintCheck env { st with rejections := assignGameRejections env st g } g slot).2)
      (fun slot => scoreSlot env { st with rejections := assignGameRejections env st g } g slot)
      env.slots with
  | none => exact hi'
  | some p =>
    obtain ⟨slot, s⟩ := p
    obtain ⟨hmem, hlegal, hs⟩ := selectMin_spec _ _ _ _ _ hsel
    rw [Bool.and_eq_true, Bool.not_eq_true'] at hlegal
    exact assign_inv_of_check env g slot hi' hlegal.1 hlegal.2

/-- A failed `assignGame` only bumps rejection counters. -/
theorem assignGame_false (env : Env) (st : SState) (g : Game)
    (h : (assignGame env st g).1 = false) :
    (assignGame env st g).2 = { st with rejections := assignGameRejections env st g } := by
  unfold assignGame at h ⊢
  dsimp only [] at h ⊢
  cases hsel : selectMin
      (fun slot => !SState.usedSlots { st with rejections := assignGameRejections env st g } slot
        && (hardConstraintCheck env { st with rejections := assignGameRejections env st g } g slot).2)
      (fun slot => scoreSlot env { st with rejections := assignGameRejections env st g } g slot)
      env.slots with
  | none => rfl
  | some p =>
    rw [hsel] at h
    obtain ⟨slot, s⟩ := p
    cases h

/-- The slot loop of the displacement search preserves the invariant and
rolls back exactly when the whole chain fails. -/
theorem displaceLoop_spec (env : Env) {recurse : SState → Game → Bool × SState}
    (hrec : DisplaceSpec env recurse) (game : Game) :
    ∀ (slots : List Slot) (st : SState), Inv env st →
      Inv env (displaceLoop env recurse game st slots).2
      ∧ ((displaceLoop env recurse game st slots).1 = false
          → Restore st (displaceLoop env recurse game st slots).2) := by
  intro slots
  induction slots with
  | nil =>
    intro st hi
    exact ⟨hi, fun _ => Restore.refl st⟩
  | cons slot rest ih =>
    intro st hi
    simp only [displaceLoop]
    by_cases hused : st.usedSlots slot = true
    swap
    · rw [if_pos (by simp [Bool.not_eq_true] at hused ⊢; exact hused)]
      exact ih st hi
    rw [if_neg (by simp [hused])]
    by_cases hsun : isSunday slot.date = true
    · rw [if_pos hsun]
      exact ih st hi
    rw [if_neg hsun]
    cases hfind : findAssignmentIdx st.assignments slot with
    | none => exact ih st hi
    | some victimIdx =>
      obtain ⟨hlt, hslot⟩ := findAssignmentIdx_some hfind
      dsimp only []
      set victim := (st.unassign victimIdx).1 with hvic
      set st1 := (st.unassign victimIdx).2 with hst1
      have hvic' : victim = st.assignments[victimIdx] := by
        rw [hvic, unassign_eq st victimIdx hlt]
      have hi1 : Inv env st1 := by
        rw [hst1]
        exact unassign_inv env victimIdx hlt hi
      have hfree1 : st1.usedSlots slot = false := by
        rw [hst1, unassign_eq st victimIdx hlt]
        show (if slot = st.assignments[victimIdx].slot then false
          else st.usedSlots slot) = false
        rw [if_pos hslot.symm]
      by_cases hchk : (hardConstraintCheck env st1 game slot).2 = true
      · rw [if_pos hchk]
        have hi2 : Inv env (st1.assign game slot) :=
          assign_inv_of_check env game slot hi1 hfree1 hchk
        set agp := assignGame env (st1.assign game slot) victim.game with hag
        have hi3 : Inv env agp.2 := by
          rw [hag]
          exact assignGame_inv env victim.game hi2
        by_cases hok : agp.1 = true
        · rw [if_pos hok]
          exact ⟨hi3, fun hfalse => by simp at hfalse⟩
        · rw [if_neg hok]
          have hokf : agp.1 = false := by
            cases h : agp.1
            · rfl
            · exact absurd h hok
          have hst3 : agp.2 = { st1.assign game slot with
              rejections := assignGameRejections env (st1.assign game slot) victim.game } := by
            rw [hag]
            refine assignGame_false env _ victim.game ?_
            rw [← hag]
            exact hokf
          have hres23 : Restore (st1.assign game slot) agp.2 := by
            rw [hst3]
            exact ⟨rfl, rfl, List.Perm.refl _⟩
          set rcp := recurse agp.2 victim.game with hrc
          have hspec := hrec agp.2 victim.game hi3
          rw [← hrc] at hspec
          have hi4 : Inv env rcp.2 := hspec.1
          by_cases hok2 : rcp.1 = true
          · rw [if_pos hok2]
            exact ⟨hi4, fun hfalse => by simp at hfalse⟩
          · rw [if_neg hok2]
            have hok2f : rcp.1 = false := by
              cases h : rcp.1
              · rfl
              · exact absurd h hok2
            have hres34 : Restore agp.2 rcp.2 := hspec.2 hok2f
            have hres24 : Restore (st1.assign game slot) rcp.2 :=
              Restore.comp hres23 hres34
            have hmem4 : (⟨game, slot⟩ : Assignment) ∈ rcp.2.assignments := by
              apply hres24.perm.mem_iff.2
              show _ ∈ st1.assignments ++ [(⟨game, slot⟩ : Assignment)]
              simp
            cases hfind4 : findAssignmentIdx rcp.2.assignments slot with
            | none =>
              exact absurd rfl (findAssignmentIdx_none hfind4 ⟨game, slot⟩ hmem4)
            | some i =>
              dsimp only []
              obtain ⟨hlt4, hslot4⟩ := findAssignmentIdx_some hfind4
              have hbeq : rcp.2.assignments[i] = (⟨game, slot⟩ : Assignment) := by
                have hbmem : rcp.2.assignments[i] ∈ rcp.2.assignments :=
                  List.getElem_mem hlt4
                have hb2 : rcp.2.assignments[i]
                    ∈ st1.assignments ++ [(⟨game, slot⟩ : Assignment)] :=
                  hres24.perm.mem_iff.1 hbmem
                rcases List.mem_append.1 hb2 with hb | hb
                · exfalso
                  have hkey : slot ∈ slotKeys st1.assignments := by
                    rw [← hslot4]
                    exact List.mem_map_of_mem (·.slot) hb
                  rw [(hi1.used_iff slot).2 hkey] at hfree1
                  cases hfree1
                · simpa using hb
              have hres15 : Restore st1 (rcp.2.unassign i).2 := by
                rw [unassign_eq rcp.2 i hlt4]
                refine ⟨?_, ?_, ?_⟩
                · funext sk
                  show (if sk = rcp.2.assignments[i].slot then false
                    else rcp.2.usedSlots sk) = st1.usedSlots sk
                  rw [hbeq, hres24.used]
                  show (if sk = slot then false
                    else (st1.assign game slot).usedSlots sk) = st1.usedSlots sk
                  by_cases h : sk = slot
                  · rw [if_pos h, h, hfree1]
                  · rw [if_neg h]
                    show (if sk = slot then true else st1.usedSlots sk)
                      = st1.usedSlots sk
                    rw [if_neg h]
                · funext tm
                  show (if tm = rcp.2.assignments[i].game.away then
                      removeDate (if rcp.2.assignments[i].game.home
                          = rcp.2.assignments[i].game.away then
                          removeDate (rcp.2.teamDates tm) rcp.2.assignments[i].slot.date
                        else rcp.2.teamDates tm) rcp.2.assignments[i].slot.date
                    else if tm = rcp.2.assignments[i].game.home then
                      removeDate (rcp.2.teamDates tm) rcp.2.assignments[i].slot.date
                    else rcp.2.teamDates tm) = st1.teamDates tm
                  rw [hbeq, hres24.dates]
                  show (if tm = game.away then
                      removeDate (if game.home = game.away then
                          removeDate ((st1.assign game slot).teamDates tm) slot.date
                        else (st1.assign game slot).teamDates tm) slot.date
                    else if tm = game.home then
                      removeDate ((st1.assign game slot).teamDates tm) slot.date
                    else (st1.assign game slot).teamDates tm) = st1.teamDates tm
                  by_cases hq : tm = game.away
                  · rw [if_pos hq]
                    by_cases hh : game.home = game.away
                    · rw [if_pos hh]
                      have hir : (st1.assign game slot).teamDates tm
                          = insertSorted (insertSorted (st1.teamDates tm) slot.date)
                            slot.date := by
                        show (if tm = game.away then
                            insertSorted (if game.home = game.away then
                                insertSorted (st1.teamDates tm) slot.date
                              else st1.teamDates tm) slot.date
                          else if tm = game.home then
                            insertSorted (st1.teamDates tm) slot.date
                          else st1.teamDates tm) = _
                        rw [if_pos hq, if_pos hh]
                      rw [hir, removeDate_insertSorted, removeDate_insertSorted]
                    · rw [if_neg hh]
                      have hir : (st1.assign game slot).teamDates tm
                          = insertSorted (st1.teamDates tm) slot.date := by
                        show (if tm = game.away then
                            insertSorted (if game.home = game.away then
                                insertSorted (st1.teamDates tm) slot.date
                              else st1.teamDates tm) slot.date
                          else if tm = game.home then
                            insertSorted (st1.teamDates tm) slot.date
                          else st1.teamDates tm) = _
                        rw [if_pos hq, if_neg hh]
                      rw [hir, removeDate_insertSorted]
                  · rw [if_neg hq]
                    by_cases hm : tm = game.home
                    · rw [if_pos hm]
                      have hir : (st1.assign game slot).teamDates tm
                          = insertSorted (st1.teamDates tm) slot.date := by
                        show (if tm = game.away then
                            insertSorted (if game.home = game.away then
                                insertSorted (st1.teamDates tm) slot.date
                              else st1.teamDates tm) slot.date
                          else if tm = game.home then
                            insertSorted (st1.teamDates tm) slot.date
                          else st1.teamDates tm) = _
                        rw [if_neg hq, if_pos hm]
                      rw [hir, removeDate_insertSorted]
                    · rw [if_neg hm]
                      show (if tm = game.away then
                          insertSorted (if game.home = game.away then
                              insertSorted (st1.teamDates tm) slot.date
                            else st1.teamDates tm) slot.date
                        else if tm = game.home then
                          insertSorted (st1.teamDates tm) slot.date
                        else st1.teamDates tm) = st1.teamDates tm
                      rw [if_neg hq, if_neg hm]
                · show (rcp.2.assignments.take i
                      ++ rcp.2.assignments.drop (i + 1)).Perm st1.assignments
                  have hsplit4 : rcp.2.assignments
                      = rcp.2.assignments.take i ++ rcp.2.assignments[i]
                        :: rcp.2.assignments.drop (i + 1) := by
                    rw [← List.drop_eq_getElem_cons hlt4, List.take_append_drop]
                  have hcons : (rcp.2.assignments[i]
                        :: (rcp.2.assignments.take i
                          ++ rcp.2.assignments.drop (i + 1))).Perm
                      (rcp.2.assignments[i] :: st1.assignments) := by
                    refine List.Perm.trans List.perm_middle.symm ?_
                    rw [← hsplit4]
                    refine hres24.perm.trans ?_
                    show (st1.assignments ++ [(⟨game, slot⟩ : Assignment)]).Perm _
                    rw [hbeq]
                    exact List.perm_append_singleton _ _
                  exact List.Perm.cons_inv hcons
              have hresMid : Restore (st.unassign victimIdx).2 (rcp.2.unassign i).2 :=
                hst1 ▸ hres15
              have hres6 := reassign_restore env victimIdx hlt hi hresMid
              rw [← hvic] at hres6
              have hi6 : Inv env ((rcp.2.unassign i).2.assign victim.game victim.slot) :=
                Inv.of_restore env hres6 hi
              obtain ⟨hiL, hresL⟩ := ih _ hi6
              exact ⟨hiL, fun hfalse => Restore.comp hres6 (hresL hfalse)⟩
      · rw [if_neg hchk]
        have hresMid : Restore (st.unassign victimIdx).2 st1 :=
          hst1 ▸ Restore.refl st1
        have hres6 := reassign_restore env victimIdx hlt hi hresMid
        rw [← hvic] at hres6
        have hi6 : Inv env (st1.assign victim.game victim.slot) :=
          Inv.of_restore env hres6 hi
        obtain ⟨hiL, hresL⟩ := ih _ hi6
        exact ⟨hiL, fun hfalse => Restore.comp hres6 (hresL hfalse)⟩

/-- `tryDisplaceAtDepth` satisfies the displacement contract at every depth. -/
theorem tryDisplaceAtDepth_spec (env : Env) :
    ∀ d : Nat, DisplaceSpec env (tryDisplaceAtDepth env d) := by
  intro d
  induction d with
  | zero => exact fun st g hi => ⟨hi, fun _ => Restore.refl st⟩
  | succ n ihn =>
    intro st g hi
    show Inv env (displaceLoop env (tryDisplaceAtDepth env n) g st env.slots).2 ∧ _
    exact displaceLoop_spec env ihn g env.slots st hi

/-- `tryDisplace` preserves the invariant and restores on failure. -/
theorem tryDisplace_spec (env : Env) : DisplaceSpec env (tryDisplace env) :=
  fun st g hi => tryDisplaceAtDepth_spec env 3 st g hi

/-! ### The invariant across the four phases of one attempt -/

/-- A fold preserves any predicate its steps preserve. -/
theorem foldl_pres {α β : Type _} (P : β → Prop) (f : β → α → β) :
    ∀ (l : List α) (b : β), (∀ a ∈ l, ∀ s, P s → P (f s a)) → P b → P (l.foldl f b)
  | [], _, _, hb => hb
  | a :: l, b, h, hb =>
    foldl_pres P f l (f b a) (fun x hx s hs => h x (List.mem_cons_of_mem a hx) s hs)
      (h a (List.mem_cons_self a l) b hb)

/-- The invariant reads only the occupancy map, the timelines and the
assignment list. -/
theorem Inv.of_fields (env : Env) {st st' : SState} (hi : Inv env st)
    (h1 : st'.usedSlots = st.usedSlots) (h2 : st'.teamDates = st.teamDates)
    (h3 : st'.assignments = st.assignments) : Inv env st' := by
  refine ⟨?_, ?_, ?_, ?_, ?_, ?_⟩
  · intro sk
    rw [h1, h3]
    exact hi.used_iff sk
  · rw [h3]
    exact hi.keys_nodup
  · intro tm
    rw [h2, h3]
    exact hi.dates_perm tm
  · intro tm
    rw [h2]
    exact hi.dates_sorted tm
  · intro tm d
    rw [h3]
    exact hi.day_cap tm d
  · intro h tm lo
    rw [h3]
    exact hi.window_cap h tm lo

/-- The fresh state of an attempt satisfies the invariant. -/
theorem init_inv (env : Env) : Inv env SState.init := by
  refine ⟨?_, ?_, ?_, ?_, ?_, ?_⟩
  · intro sk
    simp [SState.init, slotKeys]
  · simp [SState.init, slotKeys]
  · intro tm
    simp [SState.init, teamDatesOf]
  · intro tm
    simp [SState.init]
  · intro tm d
    simp [teamDayCount, SState.init]
  · intro _ tm lo
    simp [teamSpanCount, SState.init]

/-- Placing one matched Saturday game preserves the invariant. -/
theorem placeSaturdayGame_inv (env : Env) (satSlots : List Nat) {p : SState × List Nat}
    (gi : Nat) (games : List Game) (hi : Inv env p.1) :
    Inv env (placeSaturdayGame env satSlots p gi games).1 := by
  obtain ⟨st, scheduled⟩ := p
  unfold placeSaturdayGame
  dsimp only [] at hi ⊢
  split
  · exact hi
  · rename_i si s hsel
    obtain ⟨hmem, hlegal, hs⟩ := selectMin_spec _ _ _ _ _ hsel
    simp only [Bool.and_eq_true, Bool.not_eq_true'] at hlegal
    exact assign_inv_of_check env _ _ hi hlegal.1 hlegal.2

/-- Phase 1 (`scheduleSaturdays`) preserves the invariant. -/
theorem scheduleSaturdays_inv (env : Env) (S : Shuffler) (seed : Nat) {st : SState}
    (games : List Game) (ctr : Nat) (hi : Inv env st) :
    Inv env (scheduleSaturdays env S seed st games ctr).1 := by
  unfold scheduleSaturdays
  dsimp only []
  refine foldl_pres (fun acc : SState × List Nat × Nat => Inv env acc.1) _ _ _ ?_ hi
  intro sat _ acc hacc
  obtain ⟨st0, scheduled0, ctr0⟩ := acc
  dsimp only [] at hacc ⊢
  split
  · exact hacc
  · split
    · exact hacc
    · rename_i mtch hm
      refine foldl_pres (fun p : SState × List Nat => Inv env p.1) _ _ _ ?_ hacc
      intro gi _ p hp
      exact placeSaturdayGame_inv env _ gi games hp

/-- The Sunday inner loop preserves the invariant. -/
theorem sundayLoop_inv (env : Env) (games : List Game) (sunSlots : List Nat) :
    ∀ (fuel : Nat) (st : SState) (scheduled : List Nat), Inv env st →
      Inv env (sundayLoop env games sunSlots fuel st scheduled).1 := by
  intro fuel
  induction fuel with
  | zero => exact fun st _ hi => hi
  | succ n ihn =>
    intro st scheduled hi
    simp only [sundayLoop]
    split
    · exact hi
    · rename_i i si s hsel
      obtain ⟨hmem, hlegal, hs⟩ := selectMin_spec _ _ _ _ _ hsel
      simp only [Bool.and_eq_true, Bool.not_eq_true'] at hlegal
      exact ihn _ _ (assign_inv_of_check env _ _ hi hlegal.1 hlegal.2)

/-- One Sunday-date iteration preserves the invariant. -/
theorem scheduleOneSunday_inv (env : Env) (games : List Game) (sun : Nat)
    {acc : SState × List Nat} (hi : Inv env acc.1) :
    Inv env (scheduleOneSunday env games sun acc).1 := by
  obtain ⟨st, scheduled⟩ := acc
  unfold scheduleOneSunday
  dsimp only [] at hi ⊢
  split
  · exact hi
  · exact sundayLoop_inv env games _ _ st scheduled hi

/-- Phase 2 (`scheduleSundays`) preserves the invariant. -/
theorem scheduleSundays_inv (env : Env) {st : SState} (games : List Game)
    (hi : Inv env st) : Inv env (scheduleSundays env st games).1 := by
  unfold scheduleSundays
  dsimp only []
  refine foldl_pres (fun acc : SState × List Nat => Inv env acc.1) _ _ _ ?_ hi
  intro sun _ acc hacc
  exact scheduleOneSunday_inv env games sun hacc

/-- Phase 3 (`scheduleWithBacktracking`) preserves the invariant. -/
theorem scheduleWithBacktracking_inv (env : Env) {st : SState} (games : List Game)
    (hi : Inv env st) : Inv env (scheduleWithBacktracking env st games).1 := by
  unfold scheduleWithBacktracking
  refine foldl_pres (fun acc : SState × List Game => Inv env acc.1) _ _ _ ?_ hi
  intro game _ acc hacc
  obtain ⟨st0, uns⟩ := acc
  dsimp only [] at hacc ⊢
  split
  · exact assignGame_inv env game hacc
  · split
    · exact (tryDisplace_spec env _ game (assignGame_inv env game hacc)).1
    · have hi3 := (tryDisplace_spec env _ game (assignGame_inv env game hacc)).1
      dsimp only []
      split
      · exact Inv.stuck env hi3 _
      · exact hi3

/-- Phase 4 (`scheduleOverflow`) preserves the invariant. -/
theorem scheduleOverflow_inv (env : Env) {st : SState} (games : List Game)
    (hi : Inv env st) : Inv env (scheduleOverflow env st games).1 := by
  unfold scheduleOverflow
  refine foldl_pres (fun acc : SState × List Game => Inv env acc.1) _ _ _ ?_ hi
  intro game _ acc hacc
  obtain ⟨st0, uns⟩ := acc
  dsimp only [] at hacc ⊢
  split
  · rename_i slot hfind
    have hp := List.find?_some hfind
    rw [Bool.and_eq_true, Bool.not_eq_true'] at hp
    exact assign_inv_of_check env _ _ hacc hp.1 hp.2
  · exact hacc

set_option maxHeartbeats 2000000 in
/-- A whole attempt preserves the invariant. -/
theorem trySchedule_inv (env : Env) (S : Shuffler) (seed : Nat) {st : SState}
    (games : List Game) (hi : Inv env st) :
    Inv env (trySchedule env S seed st games).2 := by
  unfold trySchedule
  dsimp only []
  set r1 := scheduleSaturdays env S seed st games 0 with hr1
  set r2 := scheduleSundays env r1.1 r1.2.1 with hr2
  set gs3 := sortByDifficulty env r2.1 r2.2 with hg3
  set r3 := scheduleWithBacktracking env r2.1 gs3 with hr3
  have h1 : Inv env r1.1 := by
    rw [hr1]
    exact scheduleSaturdays_inv env S seed games 0 hi
  have h2 : Inv env r2.1 := by
    rw [hr2]
    exact scheduleSundays_inv env r1.2.1 h1
  have h3 : Inv env r3.1 := by
    rw [hr3]
    exact scheduleWithBacktracking_inv env gs3 h2
  split
  · exact Inv.of_fields env (scheduleOverflow_inv env r3.2 h3) rfl rfl rfl
  · exact Inv.of_fields env h3 rfl rfl rfl

/-- Every restart attempt's final state satisfies the invariant. -/
theorem attemptOutcome_inv (env : Env) (S : Shuffler) (attempt : Nat) :
    Inv env (attemptOutcome env S attempt).2 :=
  trySchedule_inv env S (42 + attempt) (S.gameShuffle (42 + attempt) env.games)
    (init_inv env)

theorem runAttempts_inv (env : Env) (S : Shuffler) :
    ∀ p ∈ runAttempts env S, Inv env p.2 := by
  intro p hp
  rcases List.mem_map.1 hp with ⟨i, _, rfl⟩
  exact attemptOutcome_inv env S i

/-- Both candidates the selection fold tracks satisfy the invariant. -/
theorem runSelect_inv (env : Env) (attempts : List (Bool × SState))
    (hall : ∀ p ∈ attempts, Inv env p.2) :
    (∀ b s, (runSelect env attempts).1 = some (b, s) → Inv env b)
    ∧ (∀ b, (runSelect env attempts).2 = some b → Inv env b) := by
  unfold runSelect
  refine foldl_pres
    (fun acc : Option (SState × Int) × Option SState =>
      (∀ b s, acc.1 = some (b, s) → Inv env b) ∧ (∀ b, acc.2 = some b → Inv env b))
    _ attempts (none, none) ?_ ?_
  swap
  · constructor
    · intro b s h
      exact Option.noConfusion h
    · intro b h
      exact Option.noConfusion h
  intro p hp acc hacc
  have hcand : Inv env p.2 := hall p hp
  obtain ⟨ok, cand⟩ := p
  obtain ⟨best, bestFail⟩ := acc
  dsimp only [] at hacc hcand ⊢
  cases ok with
  | true =>
    rw [if_pos rfl]
    cases best with
    | none =>
      refine ⟨?_, hacc.2⟩
      intro b s h
      injection h with h
      injection h with h1 h2
      subst h1
      exact hcand
    | some q =>
      obtain ⟨b0, bs⟩ := q
      dsimp only []
      split
      · refine ⟨?_, hacc.2⟩
        intro b s h
        injection h with h
        injection h with h1 h2
        subst h1
        exact hcand
      · refine ⟨?_, hacc.2⟩
        intro b s h
        injection h with h
        injection h with h1 h2
        subst h1
        exact hacc.1 b0 bs rfl
  | false =>
    rw [if_neg (by simp)]
    cases bestFail with
    | none =>
      refine ⟨hacc.1, ?_⟩
      intro b h
      injection h with h
      subst h
      exact hcand
    | some bf =>
      dsimp only []
      split
      · refine ⟨hacc.1, ?_⟩
        intro b h
        injection h with h
        subst h
        exact hcand
      · refine ⟨hacc.1, ?_⟩
        intro b h
        injection h with h
        subst h
        exact hacc.2 bf rfl

/-- The state `run` returns satisfies the invariant. -/
theorem run_inv (env : Env) (S : Shuffler) : Inv env (run env S).1 := by
  unfold run
  dsimp only []
  have h := runSelect_inv env (runAttempts env S) (runAttempts_inv env S)
  split
  · rename_i b s hbest
    exact Inv.of_fields env (h.1 b s hbest) rfl rfl rfl
  · split
    · rename_i bf hbf
      exact Inv.of_fields env (h.2 bf hbf) rfl rfl rfl
    · exact init_inv env


/-! ### The declarative characterization of the best-attempt selection -/

/-- Appending a failed attempt does not disturb the success contract. -/
theorem SelCharSucc_lift (env : Env) {seen : List (Bool × SState)}
    {best : Option (SState × Int)} {p : Bool × SState} (hp : p.1 = false)
    (h : SelCharSucc env seen best) : SelCharSucc env (seen ++ [p]) best := by
  cases best with
  | none =>
    intro q hq
    rcases List.mem_append.1 hq with hq | hq
    · exact h q hq
    · rw [List.mem_singleton] at hq
      subst hq
      exact hp
  | some q =>
    obtain ⟨b, s⟩ := q
    obtain ⟨hs, i, hlen, hget, hmin, hstrict⟩ := h
    have hlen2 : i < (seen ++ [p]).length := by
      rw [List.length_append]
      exact Nat.lt_succ_of_lt hlen
    refine ⟨hs, i, hlen2, ?_, ?_, ?_⟩
    · rw [← hget]
      simp [List.getElem_append_left hlen]
    · intro q hq hq1
      rcases List.mem_append.1 hq with hq | hq
      · exact hmin q hq hq1
      · rw [List.mem_singleton] at hq
        subst hq
        rw [hq1] at hp
        cases hp
    · intro q hq hq1
      rw [List.take_append_of_le_length (Nat.le_of_lt hlen)] at hq
      exact hstrict q hq hq1

/-- Appending a successful attempt does not disturb the failure contract. -/
theorem SelCharFail_lift (env : Env) {seen : List (Bool × SState)}
    {bfo : Option SState} {p : Bool × SState} (hp : p.1 = true)
    (h : SelCharFail env seen bfo) : SelCharFail env (seen ++ [p]) bfo := by
  cases bfo with
  | none =>
    intro q hq
    rcases List.mem_append.1 hq with hq | hq
    · exact h q hq
    · rw [List.mem_singleton] at hq
      subst hq
      exact hp
  | some bf =>
    obtain ⟨i, hlen, hget, hdom, hstrict⟩ := h
    have hlen2 : i < (seen ++ [p]).length := by
      rw [List.length_append]
      exact Nat.lt_succ_of_lt hlen
    refine ⟨i, hlen2, ?_, ?_, ?_⟩
    · rw [← hget]
      simp [List.getElem_append_left hlen]
    · intro q hq hq1
      rcases List.mem_append.1 hq with hq | hq
      · exact hdom q hq hq1
      · rw [List.mem_singleton] at hq
        subst hq
        rw [hq1] at hp
        cases hp
    · intro q hq hq1
      rw [List.take_append_of_le_length (Nat.le_of_lt hlen)] at hq
      exact hstrict q hq hq1

/-- One step of the selection fold preserves the selection contract. -/
theorem selStep (env : Env) (seen : List (Bool × SState))
    (best : Option (SState × Int)) (bestFail : Option SState)
    (ok : Bool) (cand : SState) :
    SelChar env seen (best, bestFail) →
    SelChar env (seen ++ [(ok, cand)])
      (if ok then
        match best with
        | none => (some (cand, softScore env cand), bestFail)
        | some (b, bs) =>
          if softScore env cand < bs then (some (cand, softScore env cand), bestFail)
          else (some (b, bs), bestFail)
      else
        match bestFail with
        | none => (best, some cand)
        | some bf =>
          if cand.assignments.length > bf.assignments.length
              || (cand.assignments.length == bf.assignments.length
                  && softScore env cand < softScore env bf) then
            (best, some cand)
          else (best, some bf)) := by
  intro h
  obtain ⟨hsucc, hfail⟩ := h
  cases ok with
  | true =>
    rw [if_pos rfl]
    cases best with
    | none =>
      dsimp only []
      refine ⟨?_, SelCharFail_lift env rfl hfail⟩
      refine ⟨rfl, seen.length, ?_, ?_, ?_, ?_⟩
      · rw [List.length_append]
        exact Nat.lt_succ_self _
      · simp
      · intro q hq hq1
        rcases List.mem_append.1 hq with hq | hq
        · have hqf := hsucc q hq
          rw [hq1] at hqf
          cases hqf
        · rw [List.mem_singleton] at hq
          subst hq
          exact le_refl _
      · intro q hq hq1
        rw [List.take_append_of_le_length (le_refl _), List.take_length] at hq
        have hqf := hsucc q hq
        rw [hq1] at hqf
        cases hqf
    | some q =>
      obtain ⟨b, bs⟩ := q
      obtain ⟨hbs, i, hlen, hget, hmin, hstrict⟩ := hsucc
      dsimp only []
      by_cases hlt : softScore env cand < bs
      · rw [if_pos hlt]
        refine ⟨?_, SelCharFail_lift env rfl hfail⟩
        refine ⟨rfl, seen.length, ?_, ?_, ?_, ?_⟩
        · rw [List.length_append]
          exact Nat.lt_succ_self _
        · simp
        · intro q hq hq1
          rcases List.mem_append.1 hq with hq | hq
          · exact le_of_lt (lt_of_lt_of_le hlt (hmin q hq hq1))
          · rw [List.mem_singleton] at hq
            subst hq
            exact le_refl _
        · intro q hq hq1
          rw [List.take_append_of_le_length (le_refl _), List.take_length] at hq
          exact lt_of_lt_of_le hlt (hmin q hq hq1)
      · rw [if_neg hlt]
        refine ⟨?_, SelCharFail_lift env rfl hfail⟩
        have hble : bs ≤ softScore env cand := le_of_not_lt hlt
        have hlen2 : i < (seen ++ [(true, cand)]).length := by
          rw [List.length_append]
          exact Nat.lt_succ_of_lt hlen
        refine ⟨hbs, i, hlen2, ?_, ?_, ?_⟩
        · rw [← hget]
          simp [List.getElem_append_left hlen]
        · intro q hq hq1
          rcases List.mem_append.1 hq with hq | hq
          · exact hmin q hq hq1
          · rw [List.mem_singleton] at hq
            subst hq
            exact hble
        · intro q hq hq1
          rw [List.take_append_of_le_length (Nat.le_of_lt hlen)] at hq
          exact hstrict q hq hq1
  | false =>
    rw [if_neg (by simp)]
    cases bestFail with
    | none =>
      dsimp only []
      refine ⟨SelCharSucc_lift env rfl hsucc, ?_⟩
      refine ⟨seen.length, ?_, ?_, ?_, ?_⟩
      · rw [List.length_append]
        exact Nat.lt_succ_self _
      · simp
      · intro q hq hq1
        rcases List.mem_append.1 hq with hq | hq
        · have hqt := hfail q hq
          rw [hq1] at hqt
          cases hqt
        · rw [List.mem_singleton] at hq
          subst hq
          exact ⟨le_refl _, fun _ => le_refl _⟩
      · intro q hq hq1
        rw [List.take_append_of_le_length (le_refl _), List.take_length] at hq
        have hqt := hfail q hq
        rw [hq1] at hqt
        cases hqt
    | some bf =>
      obtain ⟨i, hlen, hget, hdom, hstrict⟩ := hfail
      dsimp only []
      by_cases hcond : (cand.assignments.length > bf.assignments.length
          || (cand.assignments.length == bf.assignments.length
              && softScore env cand < softScore env bf)) = true
      · rw [if_pos hcond]
        simp only [Bool.or_eq_true, Bool.and_eq_true, decide_eq_true_eq,
          beq_iff_eq] at hcond
        refine ⟨SelCharSucc_lift env rfl hsucc, ?_⟩
        refine ⟨seen.length, ?_, ?_, ?_, ?_⟩
        · rw [List.length_append]
          exact Nat.lt_succ_self _
        · simp
        · intro q hq hq1
          rcases List.mem_append.1 hq with hq | hq
          · obtain ⟨hle, himp⟩ := hdom q hq hq1
            rcases hcond with hgt | hpair
            · exact ⟨by omega, fun hqeq => by omega⟩
            · obtain ⟨heq, hslt⟩ := hpair
              refine ⟨by omega, fun hqeq => ?_⟩
              have hbq := himp (by omega)
              exact le_of_lt (lt_of_lt_of_le hslt hbq)
          · rw [List.mem_singleton] at hq
            subst hq
            exact ⟨le_refl _, fun _ => le_refl _⟩
        · intro q hq hq1
          rw [List.take_append_of_le_length (le_refl _), List.take_length] at hq
          obtain ⟨hle, himp⟩ := hdom q hq hq1
          rcases hcond with hgt | hpair
          · exact Or.inl (by omega)
          · obtain ⟨heq, hslt⟩ := hpair
            by_cases hqe : q.2.assignments.length = bf.assignments.length
            · exact Or.inr ⟨by omega, lt_of_lt_of_le hslt (himp hqe)⟩
            · exact Or.inl (by omega)
      · rw [if_neg hcond]
        simp only [Bool.or_eq_true, Bool.and_eq_true, decide_eq_true_eq,
          beq_iff_eq, not_or, not_and] at hcond
        obtain ⟨hngt, himp2⟩ := hcond
        refine ⟨SelCharSucc_lift env rfl hsucc, ?_⟩
        have hlen2 : i < (seen ++ [(false, cand)]).length := by
          rw [List.length_append]
          exact Nat.lt_succ_of_lt hlen
        refine ⟨i, hlen2, ?_, ?_, ?_⟩
        · rw [← hget]
          simp [List.getElem_append_left hlen]
        · intro q hq hq1
          rcases List.mem_append.1 hq with hq | hq
          · exact hdom q hq hq1
          · rw [List.mem_singleton] at hq
            subst hq
            dsimp only [] at hq1 ⊢
            refine ⟨by omega, fun hqeq => ?_⟩
            have hnlt := himp2 hqeq
            omega
        · intro q hq hq1
          rw [List.take_append_of_le_length (Nat.le_of_lt hlen)] at hq
          exact hstrict q hq hq1

/-- The generalized fold form of the selection characterization. -/
theorem runSelect_char_aux (env : Env) :
    ∀ (l seen : List (Bool × SState)) (acc : Option (SState × Int) × Option SState),
      SelChar env seen acc →
      SelChar env (seen ++ l)
        (l.foldl (fun (acc : Option (SState × Int) × Option SState) p =>
          let (best, bestFail) := acc
          let (ok, cand) := p
          if ok then
            let score := softScore env cand
            match best with
            | none => (some (cand, score), bestFail)
            | some (b, bs) => if score < bs then (some (cand, score), bestFail) else (some (b, bs), bestFail)
          else
            match bestFail with
            | none => (best, some cand)
            | some bf =>
              if cand.assignments.length > bf.assignments.length
                  || (cand.assignments.length == bf.assignments.length
                      && softScore env cand < softScore env bf) then
                (best, some cand)
              else (best, some bf)) acc) := by
  intro l
  induction l with
  | nil =>
    intro seen acc h
    rw [List.append_nil]
    exact h
  | cons p l ihl =>
    intro seen acc h
    obtain ⟨best, bestFail⟩ := acc
    obtain ⟨ok, cand⟩ := p
    rw [List.append_cons]
    exact ihl (seen ++ [(ok, cand)]) _ (selStep env seen best bestFail ok cand h)

/-- The selection fold of `run` satisfies the declarative contract. -/
theorem runSelect_char (env : Env) (attempts : List (Bool × SState)) :
    SelChar env attempts (runSelect env attempts) := by
  have hbase : SelChar env [] ((none, none) : Option (SState × Int) × Option SState) := by
    constructor
    · intro q hq
      cases hq
    · intro q hq
      cases hq
  have h := runSelect_char_aux env attempts [] (none, none) hbase
  rw [List.nil_append] at h
  exact h


/-! ### Claim C3–C5: the hard invariants of every Result -/

/-- Any same-day conflict for either team makes the hard-constraint check
fail, whatever the configured per-day cap. -/
theorem hardCheck_same_day (env : Env) (st : SState) (g : Game) (sl : Slot)
    (h : (st.teamDates g.home).contains sl.date = true
      ∨ (st.teamDates g.away).contains sl.date = true) :
    (hardConstraintCheck env st g sl).2 = false := by
  by_cases hc : (hardConstraintCheck env st g sl).2 = true
  · obtain ⟨hh, ha, _⟩ := hardCheck_pass env st g sl hc
    rcases h with h | h
    · rw [h] at hh
      cases hh
    · rw [h] at ha
      cases ha
  · exact Bool.not_eq_true _ ▸ hc

/-- `Schedule` in terms of its two stages. -/
theorem Schedule_eq (cfg : Config) (slots overflowSlots : List Slot)
    (games : List Game) (S : Shuffler) :
    Schedule cfg slots overflowSlots games S
    = ({ assignments := (run ⟨cfg, slots, overflowSlots, games⟩ S).1.assignments
         warnings := (buildMetrics ⟨cfg, slots, overflowSlots, games⟩
           (run ⟨cfg, slots, overflowSlots, games⟩ S).1).1
         teamGames := (run ⟨cfg, slots, overflowSlots, games⟩ S).1.teamGames
         teamMetrics := (buildMetrics ⟨cfg, slots, overflowSlots, games⟩
           (run ⟨cfg, slots, overflowSlots, games⟩ S).1).2 },
       (run ⟨cfg, slots, overflowSlots, games⟩ S).2) := by
  unfold Schedule
  dsimp only []

/-- C3: no two assignments of a returned `Result` occupy the same
(date, time, venue) slot, and the same holds for the state of every
individual restart attempt. -/
theorem C3_no_double_booking (cfg : Config) (slots overflowSlots : List Slot)
    (games : List Game) (S : Shuffler) :
    (slotKeys (Schedule cfg slots overflowSlots games S).1.assignments).Nodup
    ∧ ∀ i, (slotKeys (attemptOutcome ⟨cfg, slots, overflowSlots, games⟩ S i).2.assignments).Nodup := by
  constructor
  · rw [Schedule_eq]
    exact (run_inv ⟨cfg, slots, overflowSlots, games⟩ S).keys_nodup
  · exact fun i => (attemptOutcome_inv ⟨cfg, slots, overflowSlots, games⟩ S i).keys_nodup

/-- C4: in every `Result` each team has at most one assignment per date —
the hard-constraint check rejects any second same-day assignment for a
team unconditionally, so the bound is the constant 1, not the configured
`max_games_per_day_per_team` (the configured cap can be 0 and is then
exceeded). -/
theorem C4_per_day_cap (cfg : Config) (slots overflowSlots : List Slot)
    (games : List Game) (S : Shuffler) :
    (∀ tm d, teamDayCount (Schedule cfg slots overflowSlots games S).1.assignments tm d ≤ 1)
    ∧ ∀ (env : Env) (st : SState) (g : Game) (sl : Slot),
        ((st.teamDates g.home).contains sl.date = true
          ∨ (st.teamDates g.away).contains sl.date = true) →
        (hardConstraintCheck env st g sl).2 = false := by
  constructor
  · rw [Schedule_eq]
    dsimp only []
    exact fun tm d => (run_inv ⟨cfg, slots, overflowSlots, games⟩ S).day_cap tm d
  · exact hardCheck_same_day

set_option maxRecDepth 1000000 in
/-- C4, counterexample to the spec wording: with the per-day cap configured
as 0 the scheduler still places a game, so a team's per-day count (1)
exceeds the configured cap. -/
theorem C4_per_day_cap_counterexample :
    cfgZero.rules.maxGamesPerDayPerTeam = 0
    ∧ teamDayCount (Schedule cfgZero [slotAt 19872] [] [gAB] Shuffler.id).1.assignments
        "A" 19872 = 1 := by
  constructor
  · decide
  · decide

/-- C5: with the 3-games-in-4-days cap enabled, no team in any `Result` has
three assignments inside any 4-consecutive-day window (at most 2 in any
`[lo, lo+3]`). -/
theorem C5_three_in_four (cfg : Config) (slots overflowSlots : List Slot)
    (games : List Game) (S : Shuffler) (h : cfg.rules.max3In4Days = true) :
    ∀ tm lo, teamSpanCount (Schedule cfg slots overflowSlots games S).1.assignments
      tm lo 3 ≤ 2 := by
  rw [Schedule_eq]
  dsimp only []
  exact fun tm lo => (run_inv ⟨cfg, slots, overflowSlots, games⟩ S).window_cap h tm lo

set_option maxRecDepth 1000000 in
/-- C5, witnessed on a concrete run with the cap enabled. -/
theorem C5_three_in_four_witness :
    cfg3in4.rules.max3In4Days = true
    ∧ teamSpanCount (Schedule cfg3in4 [slotAt 19872] [] [gAB] Shuffler.id).1.assignments
        "A" 19870 3 ≤ 2 :=
  ⟨by decide, C5_three_in_four cfg3in4 [slotAt 19872] [] [gAB] Shuffler.id (by decide)
    "A" 19870⟩


/-! ### Claims C6 and C7: the assign/unassign algebra -/

/-- C6: after an `unassign` the removed pair's history entry is recomputed
by scanning the pair's remaining assignments and taking the latest date;
after an `assign`, however, the entry is set to the newly assigned slot's
date — not the latest date of the pair's placed assignments, which may be
later. -/
theorem C6_matchup_history (st : SState) (g : Game) (sl : Slot) (idx : Nat)
    (h : idx < st.assignments.length) :
    (st.assign g sl).matchupDate (normalizeMatchup g.home g.away) = some sl.date
    ∧ ((st.unassign idx).2).matchupDate
        (normalizeMatchup ((st.unassign idx).1).game.home
          ((st.unassign idx).1).game.away)
      = latestDate (datesForKey ((st.unassign idx).2).assignments
          (normalizeMatchup ((st.unassign idx).1).game.home
            ((st.unassign idx).1).game.away)) :=
  ⟨assign_matchupDate st g sl, unassign_matchupDate st idx h⟩

set_option maxRecDepth 1000000 in
/-- C6, witnessed on a concrete state with one placed A–B game. -/
theorem C6_matchup_history_witness :
    0 < stC7.assignments.length
    ∧ ((stC7.assign gAB2 (slotAt 19875)).matchupDate
          (normalizeMatchup gAB2.home gAB2.away) = some (slotAt 19875).date
        ∧ ((stC7.unassign 0).2).matchupDate
            (normalizeMatchup ((stC7.unassign 0).1).game.home
              ((stC7.unassign 0).1).game.away)
          = latestDate (datesForKey ((stC7.unassign 0).2).assignments
              (normalizeMatchup ((stC7.unassign 0).1).game.home
                ((stC7.unassign 0).1).game.away))) :=
  ⟨by decide, C6_matchup_history stC7 gAB2 (slotAt 19875) 0 (by decide)⟩

set_option maxRecDepth 1000000 in
/-- C6, counterexample to the spec wording: in `stC6` the A–B history entry
holds the date of the game assigned last (19875), not the most recent
(latest) date among the pair's placed assignments (19880). -/
theorem C6_matchup_history_counterexample :
    stC6.matchupDate (normalizeMatchup "A" "B") = some 19875
    ∧ latestDate (datesForKey stC6.assignments (normalizeMatchup "A" "B"))
      = some 19880 := by
  constructor
  · decide
  · decide

/-- C7: assign-then-unassign of the same assignment restores the state
exactly, provided the slot was genuinely free, the pair's history entry was
consistent with its placed assignments, and both teams already had entries
in the per-team game-count map; without those provisos some trace (the
occupancy bit, the history entry or the game-count key set) survives. -/
theorem C7_roundtrip (st : SState) (g : Game) (sl : Slot)
    (h1 : st.usedSlots sl = false)
    (h2 : st.matchupDate (normalizeMatchup g.home g.away)
      = SState.pairLatest st.assignments (normalizeMatchup g.home g.away))
    (h3 : st.teamGamesKeys.contains g.home = true)
    (h4 : st.teamGamesKeys.contains g.away = true) :
    (st.assign g sl).unassign st.assignments.length = (⟨g, sl⟩, st) :=
  assign_unassign_roundtrip st g sl h1 h2 h3 h4

set_option maxRecDepth 1000000 in
/-- C7, witnessed on a concrete consistent state. -/
theorem C7_roundtrip_witness :
    (stC9.usedSlots (slotAt 19890) = false
      ∧ stC9.matchupDate (normalizeMatchup gAB3.home gAB3.away)
        = SState.pairLatest stC9.assignments (normalizeMatchup gAB3.home gAB3.away)
      ∧ stC9.teamGamesKeys.contains gAB3.home = true
      ∧ stC9.teamGamesKeys.contains gAB3.away = true)
    ∧ (stC9.assign gAB3 (slotAt 19890)).unassign stC9.assignments.length
      = (⟨gAB3, slotAt 19890⟩, stC9) :=
  ⟨⟨by decide, by decide, by decide, by decide⟩,
   C7_roundtrip stC9 gAB3 (slotAt 19890) (by decide) (by decide) (by decide) (by decide)⟩

set_option maxRecDepth 1000000 in
/-- C7, counterexample to the unconditional reading: from `stC6` (whose A–B
history entry, 19875, is stale with respect to the pair's latest placed
date, 19880) assigning and immediately unassigning a further A–B game does
not restore the history entry — the paired unassign recomputes it to 19880. -/
theorem C7_roundtrip_counterexample :
    stC6.matchupDate (normalizeMatchup "A" "B") = some 19875
    ∧ (((stC6.assign gAB3 (slotAt 19885)).unassign stC6.assignments.length).2).matchupDate
        (normalizeMatchup "A" "B") = some 19880 := by
  constructor
  · decide
  · decide


/-! ### Claims C1 and C2: the restart strategy and the failure report -/

/-- C1: `run` makes exactly 50 attempts, attempt `i` running the pipeline
on a fresh state with the deterministic seed `42 + i`; the selection keeps,
among successful attempts, the first one attaining the minimal soft score,
and otherwise the first failing attempt maximizing the number of placed
games with ties broken by lower score; `run` copies the kept attempt's
assignments. -/
theorem C1_restart_selection (env : Env) (S : Shuffler) :
    (runAttempts env S).length = 50
    ∧ (∀ i, i < 50 → (runAttempts env S)[i]? =
        some (trySchedule env S (42 + i) SState.init (S.gameShuffle (42 + i) env.games)))
    ∧ SelChar env (runAttempts env S) (runSelect env (runAttempts env S))
    ∧ (∀ b s, (runSelect env (runAttempts env S)).1 = some (b, s) →
        (run env S).1.assignments = b.assignments)
    ∧ ((runSelect env (runAttempts env S)).1 = none →
        ∀ bf, (runSelect env (runAttempts env S)).2 = some bf →
          (run env S).1.assignments = bf.assignments) := by
  refine ⟨by simp [runAttempts], ?_, runSelect_char env (runAttempts env S), ?_, ?_⟩
  · intro i hi
    simp only [runAttempts, List.getElem?_map, List.getElem?_range hi, Option.map_some]
    rfl
  · intro b s hbest
    unfold run
    dsimp only []
    rw [hbest]
    rfl
  · intro hnone bf hbf
    unfold run
    dsimp only []
    rw [hnone, hbf]
    rfl

/-- An attempt reports success exactly when its unscheduled list is empty. -/
theorem trySchedule_isEmpty (env : Env) (S : Shuffler) (seed : Nat) (st : SState)
    (games : List Game) :
    (trySchedule env S seed st games).1
    = (trySchedule env S seed st games).2.unscheduled.isEmpty := by
  unfold trySchedule
  dsimp only []

/-- A failing attempt leaves at least one game unscheduled. -/
theorem trySchedule_unsched (env : Env) (S : Shuffler) (seed : Nat) (st : SState)
    (games : List Game) (h : (trySchedule env S seed st games).1 = false) :
    (trySchedule env S seed st games).2.unscheduled ≠ [] := by
  intro hnil
  have heq := trySchedule_isEmpty env S seed st games
  rw [h, hnil] at heq
  cases heq

/-- C2: when every restart attempt leaves some game unplaced, `Schedule`
returns both the best partial result (the kept attempt's assignments) and
the aggregated failure error built from that attempt, whose unplaced list
is non-empty. -/
theorem C2_failure_reporting (cfg : Config) (slots overflowSlots : List Slot)
    (games : List Game) (S : Shuffler)
    (hfail : ∀ p ∈ runAttempts ⟨cfg, slots, overflowSlots, games⟩ S, p.1 = false) :
    ∃ bf, (runSelect ⟨cfg, slots, overflowSlots, games⟩
            (runAttempts ⟨cfg, slots, overflowSlots, games⟩ S)).2 = some bf
      ∧ (Schedule cfg slots overflowSlots games S).2
        = some (buildFailureError ⟨cfg, slots, overflowSlots, games⟩ (some bf))
      ∧ (Schedule cfg slots overflowSlots games S).1.assignments = bf.assignments
      ∧ bf.unscheduled ≠ [] := by
  obtain ⟨hsucc, hfailc⟩ :=
    runSelect_char ⟨cfg, slots, overflowSlots, games⟩
      (runAttempts ⟨cfg, slots, overflowSlots, games⟩ S)
  have hnone : (runSelect ⟨cfg, slots, overflowSlots, games⟩
      (runAttempts ⟨cfg, slots, overflowSlots, games⟩ S)).1 = none := by
    cases hb : (runSelect ⟨cfg, slots, overflowSlots, games⟩
        (runAttempts ⟨cfg, slots, overflowSlots, games⟩ S)).1 with
    | none => rfl
    | some q =>
      obtain ⟨b, s⟩ := q
      rw [hb] at hsucc
      obtain ⟨-, i, hlen, hget, -, -⟩ := hsucc
      have hf := hfail _ (List.get_mem _ i hlen)
      rw [hget] at hf
      cases hf
  cases hbf : (runSelect ⟨cfg, slots, overflowSlots, games⟩
      (runAttempts ⟨cfg, slots, overflowSlots, games⟩ S)).2 with
  | none =>
    exfalso
    rw [hbf] at hfailc
    have hlen : (runAttempts ⟨cfg, slots, overflowSlots, games⟩ S).length = 50 := by
      simp [runAttempts]
    have hmem := List.get_mem (runAttempts ⟨cfg, slots, overflowSlots, games⟩ S)
      0 (by rw [hlen]; omega)
    have h1 := hfail _ hmem
    have h2 := hfailc _ hmem
    rw [h1] at h2
    cases h2
  | some bf =>
    refine ⟨bf, rfl, ?_, ?_, ?_⟩
    · rw [Schedule_eq]
      dsimp only []
      unfold run
      dsimp only []
      rw [hnone, hbf]
    · rw [Schedule_eq]
      dsimp only []
      unfold run
      dsimp only []
      rw [hnone, hbf]
      rfl
    · rw [hbf] at hfailc
      obtain ⟨i, hlen, hget, -, -⟩ := hfailc
      have hmem : ((false, bf) : Bool × SState)
          ∈ runAttempts ⟨cfg, slots, overflowSlots, games⟩ S := by
        rw [← hget]
        exact List.get_mem _ i hlen
      rcases List.mem_map.1 hmem with ⟨j, -, hj⟩
      have hfst : (attemptOutcome ⟨cfg, slots, overflowSlots, games⟩ S j).1 = false := by
        rw [hj]
      have hne := trySchedule_unsched ⟨cfg, slots, overflowSlots, games⟩ S (42 + j)
        SState.init (S.gameShuffle (42 + j) games) hfst
      have hsnd : (attemptOutcome ⟨cfg, slots, overflowSlots, games⟩ S j).2 = bf := by
        rw [hj]
      rw [← hsnd]
      exact hne

set_option maxRecDepth 1000000 in
set_option maxHeartbeats 4000000 in
/-- C2, witnessed: with no regular slots, one overflow slot and two games,
every one of the 50 attempts fails, and the failure report is produced. -/
theorem C2_failure_reporting_witness :
    (∀ p ∈ runAttempts ⟨cfgOv, [], [slotAt 19905], [gAB, gBA]⟩ Shuffler.id, p.1 = false)
    ∧ ∃ bf, (runSelect ⟨cfgOv, [], [slotAt 19905], [gAB, gBA]⟩
            (runAttempts ⟨cfgOv, [], [slotAt 19905], [gAB, gBA]⟩ Shuffler.id)).2 = some bf
      ∧ (Schedule cfgOv [] [slotAt 19905] [gAB, gBA] Shuffler.id).2
        = some (buildFailureError ⟨cfgOv, [], [slotAt 19905], [gAB, gBA]⟩ (some bf))
      ∧ (Schedule cfgOv [] [slotAt 19905] [gAB, gBA] Shuffler.id).1.assignments
        = bf.assignments
      ∧ bf.unscheduled ≠ [] :=
  ⟨by decide, C2_failure_reporting cfgOv [] [slotAt 19905] [gAB, gBA] Shuffler.id (by decide)⟩

set_option maxRecDepth 1000000 in
set_option maxHeartbeats 4000000 in
/-- C2, counterexample to the spec wording: the error's "first game that
failed" line can name a game that the best attempt did place — here it
names "A vs B", yet the only placed assignment is exactly that game (only
"B vs A" is left unscheduled). -/
theorem C2_failure_reporting_counterexample :
    (Schedule cfgOv [] [slotAt 19905] [gAB, gBA] Shuffler.id).2 = some errOv
    ∧ (Schedule cfgOv [] [slotAt 19905] [gAB, gBA] Shuffler.id).1.assignments.map
        (fun a => a.game) = [gAB] := by
  constructor
  · decide
  · decide


/-! ### Claims C9 and C10: warnings order and the Sunday cap -/

/-- `insertLe` inserts its element somewhere: the result is a permutation. -/
theorem insertLe_perm {α : Type} (lt : α → α → Bool) (p : α) :
    ∀ l : List α, (insertLe lt p l).Perm (p :: l) := by
  intro l
  induction l with
  | nil => exact List.Perm.refl _
  | cons q rest ih =>
    simp only [insertLe]
    split
    · exact List.Perm.refl _
    · exact (ih.cons q).trans (List.Perm.swap p q rest)

theorem insertionSort_fold_perm {α : Type} (lt : α → α → Bool) :
    ∀ (l acc : List α),
      (l.foldl (fun acc x => insertLe lt x acc) acc).Perm (acc ++ l) := by
  intro l
  induction l with
  | nil =>
    intro acc
    rw [List.append_nil]
    exact List.Perm.refl _
  | cons x l ih =>
    intro acc
    refine ((ih (insertLe lt x acc)).trans ?_)
    refine (((insertLe_perm lt x acc).append_right l).trans ?_)
    exact List.perm_middle.symm

/-- The Go insertion-sort pattern permutes its input. -/
theorem insertionSortBy_perm {α : Type} (lt : α → α → Bool) (l : List α) :
    (insertionSortBy lt l).Perm l := by
  have h := insertionSort_fold_perm lt l []
  rw [List.nil_append] at h
  exact h

/-- The severity sort of the rematch violations permutes them. -/
theorem sortRematch_perm (rvs : List RematchViolation) :
    (sortRematch rvs).Perm rvs :=
  insertionSortBy_perm _ rvs

/-- Inserting into a days-sorted violation list keeps it days-sorted. -/
theorem insertLe_days_sorted (p : RematchViolation) (l : List RematchViolation)
    (hs : List.Sorted (fun a b => a.days ≤ b.days) l) :
    List.Sorted (fun a b => a.days ≤ b.days)
      (insertLe (fun a b => a.days < b.days) p l) := by
  induction l with
  | nil => simp [insertLe]
  | cons q rest ih =>
    simp only [insertLe]
    rw [List.sorted_cons] at hs
    by_cases h : p.days < q.days
    · rw [if_pos (by exact decide_eq_true h)]
      rw [List.sorted_cons]
      refine ⟨?_, List.sorted_cons.2 hs⟩
      intro y hy
      rcases List.mem_cons.1 hy with rfl | hy
      · exact le_of_lt h
      · exact le_trans (le_of_lt h) (hs.1 y hy)
    · rw [if_neg (by simp [h])]
      rw [List.sorted_cons]
      refine ⟨?_, ih hs.2⟩
      intro y hy
      have hmem := (insertLe_perm (fun a b => a.days < b.days) p rest).mem_iff.1 hy
      rcases List.mem_cons.1 hmem with rfl | hy2
      · exact le_of_not_lt h
      · exact hs.1 y hy2

/-- The rematch violations are reported worst (fewest days) first. -/
theorem sortRematch_sorted (rvs : List RematchViolation) :
    List.Sorted (fun a b => a.days ≤ b.days) (sortRematch rvs) := by
  unfold sortRematch insertionSortBy
  refine foldl_pres
    (fun l : List RematchViolation => List.Sorted (fun a b => a.days ≤ b.days) l)
    _ rvs [] ?_ List.sorted_nil
  intro x _ acc hacc
  exact insertLe_days_sorted x acc hacc

set_option maxRecDepth 1000000 in
/-- C9: rematch under-spacing warnings are ordered worst first — the
violation list is sorted by ascending gap — and the worked scenario (two
A–B meetings 7 days apart under a 14-day minimum) yields exactly one
warning, naming the pair, the 7-day gap, the minimum and both dates. -/
theorem C9_rematch_warnings (minDays : Int) (asg : List Assignment)
    (order : List MatchupKey) :
    List.Sorted (fun a b => a.days ≤ b.days)
      (sortRematch (collectRematch minDays asg order))
    ∧ (buildMetrics envC9 stC9).1 = [wC9] :=
  ⟨sortRematch_sorted _, by decide⟩

/-- Every slot index `slotsForDate` returns denotes a slot on that date. -/
theorem slotsForDate_date (env : Env) (date : Nat) :
    ∀ si ∈ slotsForDate env date, (env.slots.getD si default).date = date := by
  intro si hsi
  unfold slotsForDate at hsi
  rcases List.mem_filterMap.1 hsi with ⟨p, hp, hf⟩
  obtain ⟨i, slot⟩ := p
  by_cases hd : slot.date = date
  · rw [if_pos hd] at hf
    injection hf with hf
    subst hf
    have hget : env.slots[i]? = some slot := List.mem_enum_iff_getElem?.mp hp
    rw [List.getD]
    dsimp only []
    rw [List.get?_eq_getElem?, hget]
    exact hd
  · rw [if_neg hd] at hf
    cases hf

/-- The Sunday loop appends at most `fuel` assignments, all in slots of the
given candidate set. -/
theorem sundayLoop_delta (env : Env) (games : List Game) (sunSlots : List Nat) :
    ∀ (fuel : Nat) (st : SState) (scheduled : List Nat),
      ∃ Δ, (sundayLoop env games sunSlots fuel st scheduled).1.assignments
          = st.assignments ++ Δ
        ∧ Δ.length ≤ fuel
        ∧ ∀ a ∈ Δ, ∃ si ∈ sunSlots, a.slot = env.slots.getD si default := by
  intro fuel
  induction fuel with
  | zero =>
    intro st scheduled
    refine ⟨[], ?_, Nat.le_refl 0, fun a ha => absurd ha (List.not_mem_nil a)⟩
    rw [List.append_nil]
    rfl
  | succ n ihn =>
    intro st scheduled
    simp only [sundayLoop]
    split
    · refine ⟨[], ?_, Nat.zero_le _, fun a ha => absurd ha (List.not_mem_nil a)⟩
      rw [List.append_nil]
    · rename_i i si s hsel
      obtain ⟨hmem, hlegal, hs⟩ := selectMin_spec _ _ _ _ _ hsel
      have hsi : si ∈ sunSlots := by
        rcases List.mem_flatMap.1 hmem with ⟨p, hp, hin⟩
        split at hin
        · cases hin
        · split at hin
          · cases hin
          · rcases List.mem_map.1 hin with ⟨si2, hsi2, heq⟩
            injection heq with h1 h2
            subst h2
            exact hsi2
      obtain ⟨Δ, hΔ, hlen, hmemΔ⟩ :=
        ihn (st.assign (games.getD i default) (env.slots.getD si default)) (scheduled ++ [i])
      refine ⟨⟨games.getD i default, env.slots.getD si default⟩ :: Δ, ?_, ?_, ?_⟩
      · rw [hΔ]
        show (st.assignments ++ [⟨games.getD i default, env.slots.getD si default⟩]) ++ Δ = _
        rw [List.append_assoc]
        rfl
      · exact Nat.succ_le_succ hlen
      · intro a ha
        rcases List.mem_cons.1 ha with rfl | ha
        · exact ⟨si, hsi, rfl⟩
        · exact hmemΔ a ha

/-- C10: one Sunday-date iteration schedules at most
`min(free slots on the date, max games per timeslot)` games, all of them on
that date — the per-timeslot cap bounds the whole date. -/
theorem C10_sunday_cap (env : Env) (games : List Game) (sun : Nat)
    (acc : SState × List Nat) :
    ∃ Δ, (scheduleOneSunday env games sun acc).1.assignments
        = acc.1.assignments ++ Δ
      ∧ Δ.length ≤ min (freeSlotsOn env acc.1 sun)
          env.cfg.rules.maxGamesPerTimeslot.toNat
      ∧ ∀ a ∈ Δ, a.slot.date = sun := by
  obtain ⟨st, scheduled⟩ := acc
  unfold scheduleOneSunday
  dsimp only []
  split
  · exact ⟨[], by rw [List.append_nil], Nat.zero_le _, fun a ha => absurd ha (List.not_mem_nil a)⟩
  · obtain ⟨Δ, hΔ, hlen, hmemΔ⟩ := sundayLoop_delta env games (slotsForDate env sun)
      (if (freeSlotsOn env st sun : Int) > env.cfg.rules.maxGamesPerTimeslot then
          env.cfg.rules.maxGamesPerTimeslot
        else (freeSlotsOn env st sun : Int)).toNat st scheduled
    refine ⟨Δ, hΔ, ?_, ?_⟩
    · refine le_trans hlen ?_
      by_cases hgt : (freeSlotsOn env st sun : Int) > env.cfg.rules.maxGamesPerTimeslot
      · rw [if_pos hgt]
        omega
      · rw [if_neg hgt]
        omega
    · intro a ha
      obtain ⟨si, hsi, heq⟩ := hmemΔ a ha
      rw [heq]
      exact slotsForDate_date env sun si hsi


/-! ### Claim C8: order-(in)dependence of the metrics builder -/

/-- `buildMetricsWith` decomposed into its named stages. -/
theorem buildMetricsWith_eq2 (env : Env) (st : SState) (order : List MatchupKey) :
    buildMetricsWith env st order
    = (tailWarnings env st env.cfg.allTeams
         (rvFold (rematchViolationsOf env st order) (threeIn4Fold env st)),
       (rvFold (rematchViolationsOf env st order) (threeIn4Fold env st)).2) := by
  unfold buildMetricsWith tailWarnings rvFold rematchViolationsOf threeIn4Fold metricsInit
    sunOf
  dsimp only []

/-- The rematch stage appends exactly the violations' warning strings. -/
theorem rvFold_warnings (rvs : List RematchViolation) :
    ∀ wm : List String × (String → Option TeamMetrics),
      (rvFold rvs wm).1 = wm.1 ++ rvs.map (fun rv => rv.warning) := by
  induction rvs with
  | nil =>
    intro wm
    rw [List.map_nil, List.append_nil]
    rfl
  | cons rv rvs ih =>
    intro wm
    unfold rvFold
    rw [List.foldl_cons]
    have hx := ih ((wm.1 ++ [rv.warning],
      updateMetrics
        (updateMetrics wm.2 rv.teamA
          (fun tm => { tm with violations := tm.violations ++ [rv.warning] }))
        rv.teamB (fun tm => { tm with violations := tm.violations ++ [rv.warning] })))
    unfold rvFold at hx
    rw [hx, List.map_cons]
    dsimp only []
    rw [List.append_assoc]
    rfl

/-- Appending a violation to a team's list leaves its counts unchanged. -/
theorem updateMetrics_counts (m : String → Option TeamMetrics) (team w t : String) :
    ((updateMetrics m team
        (fun tm => { tm with violations := tm.violations ++ [w] })) t).map
      (fun tm => (tm.games, tm.saturday, tm.sunday))
    = (m t).map (fun tm => (tm.games, tm.saturday, tm.sunday)) := by
  unfold updateMetrics
  by_cases h : t = team
  · rw [if_pos h, Option.map_map]
    rfl
  · rw [if_neg h]

/-- The rematch stage leaves every team's counts unchanged. -/
theorem rvFold_counts (rvs : List RematchViolation) :
    ∀ (wm : List String × (String → Option TeamMetrics)) (t : String),
      ((rvFold rvs wm).2 t).map (fun tm => (tm.games, tm.saturday, tm.sunday))
      = (wm.2 t).map (fun tm => (tm.games, tm.saturday, tm.sunday)) := by
  induction rvs with
  | nil =>
    intro wm t
    rfl
  | cons rv rvs ih =>
    intro wm t
    unfold rvFold
    rw [List.foldl_cons]
    have hx := ih ((wm.1 ++ [rv.warning],
      updateMetrics
        (updateMetrics wm.2 rv.teamA
          (fun tm => { tm with violations := tm.violations ++ [rv.warning] }))
        rv.teamB (fun tm => { tm with violations := tm.violations ++ [rv.warning] }))) t
    unfold rvFold at hx
    rw [hx]
    dsimp only []
    rw [updateMetrics_counts, updateMetrics_counts]

/-- Equal count triples give equal Sunday counts. -/
theorem counts_sunday_eq {o1 o2 : Option TeamMetrics} :
    o1.map (fun m => (m.games, m.saturday, m.sunday))
      = o2.map (fun m => (m.games, m.saturday, m.sunday)) →
    (match o1 with | some m => m.sunday | none => 0)
    = (match o2 with | some m => m.sunday | none => 0) := by
  intro h
  cases o1 with
  | none =>
    cases o2 with
    | none => rfl
    | some y => exact Option.noConfusion h
  | some x =>
    cases o2 with
    | none => exact Option.noConfusion h
    | some y =>
      injection h with h
      injection h with h1 h2
      injection h2 with h2 h3

/-- Folds of pointwise-equal step functions agree. -/
theorem foldl_congr_fun {α β : Type _} (f g : β → α → β) (h : ∀ b a, f b a = g b a) :
    ∀ (l : List α) (b : β), l.foldl f b = l.foldl g b := by
  intro l
  induction l with
  | nil =>
    intro b
    rfl
  | cons a l ih =>
    intro b
    rw [List.foldl_cons, List.foldl_cons, h, ih]

/-- The closing stages map permuted warning lists with equal Sunday counts
to permuted warning lists. -/
theorem tailWarnings_perm (env : Env) (st : SState) (teams : List String)
    (wm1 wm2 : List String × (String → Option TeamMetrics))
    (hA : wm1.1.Perm wm2.1)
    (hsun : ∀ tm, sunOf wm1.2 tm = sunOf wm2.2 tm) :
    (tailWarnings env st teams wm1).Perm (tailWarnings env st teams wm2) := by
  unfold tailWarnings
  dsimp only []
  cases teams with
  | nil =>
    split
    · exact hA.append_right _
    · exact hA
  | cons t rest =>
    dsimp only []
    have hmax : (t :: rest).foldl (fun mx tm => max mx (sunOf wm1.2 tm)) 0
        = (t :: rest).foldl (fun mx tm => max mx (sunOf wm2.2 tm)) 0 :=
      foldl_congr_fun _ _ (fun b a => by rw [hsun a]) _ 0
    have hmin : rest.foldl (fun mn tm => min mn (sunOf wm1.2 tm)) (sunOf wm1.2 t)
        = rest.foldl (fun mn tm => min mn (sunOf wm2.2 tm)) (sunOf wm2.2 t) := by
      rw [hsun t]
      exact foldl_congr_fun _ _ (fun b a => by rw [hsun a]) _ _
    rw [hmax, hmin]
    split
    · split
      · exact (hA.append_right _).append_right _
      · exact hA.append_right _
    · split
      · exact hA.append_right _
      · exact hA

set_option maxHeartbeats 1000000 in
/-- C8: the per-team counts (games, Saturday, Sunday) of the metrics
builder do not depend on the enumeration order of the rematch grouping
map's keys, and the warning list is determined up to permutation; Go's map
iteration order is unspecified, so two runs agree on counts and on the
warning multiset, but not necessarily on the warning order (see the
counterexample). -/
theorem C8_metrics_idempotence (env : Env) (st : SState)
    (order1 order2 : List MatchupKey) (h : order1.Perm order2) :
    (buildMetricsWith env st order1).1.Perm (buildMetricsWith env st order2).1
    ∧ ∀ tm, ((buildMetricsWith env st order1).2 tm).map
          (fun m => (m.games, m.saturday, m.sunday))
        = ((buildMetricsWith env st order2).2 tm).map
          (fun m => (m.games, m.saturday, m.sunday)) := by
  have hrv : (rematchViolationsOf env st order1).Perm (rematchViolationsOf env st order2) := by
    refine (sortRematch_perm _).trans (List.Perm.trans ?_ (sortRematch_perm _).symm)
    exact List.Perm.flatMap_right _ h
  have hcnt : ∀ tm,
      ((rvFold (rematchViolationsOf env st order1) (threeIn4Fold env st)).2 tm).map
        (fun m => (m.games, m.saturday, m.sunday))
      = ((rvFold (rematchViolationsOf env st order2) (threeIn4Fold env st)).2 tm).map
        (fun m => (m.games, m.saturday, m.sunday)) := by
    intro tm
    rw [rvFold_counts, rvFold_counts]
  rw [buildMetricsWith_eq2, buildMetricsWith_eq2]
  constructor
  · dsimp only []
    refine tailWarnings_perm env st env.cfg.allTeams _ _ ?_ ?_
    · rw [rvFold_warnings, rvFold_warnings]
      exact (hrv.map _).append_left _
    · intro tm
      unfold sunOf
      exact counts_sunday_eq (hcnt tm)
  · intro tm
    dsimp only []
    exact hcnt tm

set_option maxRecDepth 1000000 in
/-- C8, witnessed at a concrete assignment set and two equal-as-multisets
key orders. -/
theorem C8_metrics_idempotence_witness :
    ([mkAB, mkCD] : List MatchupKey).Perm [mkCD, mkAB]
    ∧ ((buildMetricsWith envC8 stC8 [mkAB, mkCD]).1.Perm
          (buildMetricsWith envC8 stC8 [mkCD, mkAB]).1
        ∧ ∀ tm, ((buildMetricsWith envC8 stC8 [mkAB, mkCD]).2 tm).map
              (fun m => (m.games, m.saturday, m.sunday))
            = ((buildMetricsWith envC8 stC8 [mkCD, mkAB]).2 tm).map
              (fun m => (m.games, m.saturday, m.sunday))) :=
  ⟨by decide, C8_metrics_idempotence envC8 stC8 [mkAB, mkCD] [mkCD, mkAB] (by decide)⟩

set_option maxRecDepth 1000000 in
/-- C8, counterexample to the spec wording: two legitimate enumeration
orders of the same two grouping keys give differently-ordered warning
lists (two equal 7-day gaps tie, and the stable severity sort keeps the
enumeration order). -/
theorem C8_metrics_idempotence_counterexample :
    ([mkAB, mkCD] : List MatchupKey).Perm [mkCD, mkAB]
    ∧ (buildMetricsWith envC8 stC8 [mkAB, mkCD]).1
      ≠ (buildMetricsWith envC8 stC8 [mkCD, mkAB]).1 := by
  constructor
  · decide
  · decide

end Rbrl
